import Mathlib

/-!
Verification of the YouTubeGraph analysis core against its specification.

The Python sources are embedded shallowly:

* `src/domain/group.py` (`Neighbor`, `SegmentNode`, `SegmentGroup`,
  `cosine_similarity`) with real-valued times and similarities,
* `src/services/grouping/boundary_detector.py`, `grouping_service.py`,
  `group_merger.py` (the grouping pipeline),
* `src/services/vectorstore/segment_repository.py` (`_segment_uuid`),
* `src/core/concept_models.py` (`Concept.__post_init__`),
* `src/domain/relationship.py` (`Relationship.__post_init__`),
* `src/services/relationships/intra_group_detector.py` and
  `inter_group_detector.py` (pattern, proximity and cue-phrase detection),
* `src/core/punctuation_worker.py` (the segment assembler).

Python floats are modelled as real numbers where transcendental functions
occur (`math.exp`) and as rationals where only field arithmetic and
comparisons occur; Python ints as `Nat`/`Int`; exceptions as `Except`;
`None` as `Option`.
-/

namespace YTG

/-! ## Domain model: `src/domain/group.py` -/

/-- `Neighbor` from `src/domain/group.py`: a neighbouring segment with
similarity and temporal information. -/
structure Neighbor where
  segment_id : String
  index : Int
  similarity : ℝ
  start_time : ℝ
  end_time : ℝ
  text : String
  embedding : Option (List ℝ) := none

/-- `Neighbor.effective_similarity`: time-penalised similarity
`similarity * exp(-|start_time - ref_time| / tau)`. -/
noncomputable def Neighbor.effective_similarity (n : Neighbor) (ref_time : ℝ)
    (tau : ℝ) : ℝ :=
  n.similarity * Real.exp (-(|n.start_time - ref_time|) / tau)

/-- `SegmentNode` from `src/domain/group.py`. -/
structure SegmentNode where
  id : String
  video_id : String
  index : Int
  text : String
  start_time : ℝ
  end_time : ℝ
  word_count : ℕ
  embedding : Option (List ℝ) := none
  neighbors : List Neighbor := []
  group_id : Option Int := none

/-- `SegmentGroup` from `src/domain/group.py`. -/
structure SegmentGroup where
  group_id : ℕ
  segments : List SegmentNode
  video_id : String

/-- Python truthiness of `segment.embedding`: `None` and `[]` are falsy. -/
def SegmentNode.embTruthy (s : SegmentNode) : Option (List ℝ) :=
  match s.embedding with
  | none => none
  | some v => if v.isEmpty then none else some v

/-- `SegmentGroup.total_words`: sum of member word counts. -/
def SegmentGroup.total_words (g : SegmentGroup) : ℕ :=
  (g.segments.map SegmentNode.word_count).sum

/-- `SegmentGroup.start_time`: `min(s.start_time for s in segments)`
(Python `min` over a non-empty iterable, folded left). -/
noncomputable def SegmentGroup.start_time (g : SegmentGroup) : ℝ :=
  match g.segments with
  | [] => 0
  | s :: rest => rest.foldl (fun m x => min m x.start_time) s.start_time

/-- `SegmentGroup.end_time`: `max(s.end_time for s in segments)`. -/
noncomputable def SegmentGroup.end_time (g : SegmentGroup) : ℝ :=
  match g.segments with
  | [] => 0
  | s :: rest => rest.foldl (fun m x => max m x.end_time) s.end_time

/-- Elementwise sum of two vectors (`np.mean` intermediate); vectors in the
store share one dimensionality, so `zipWith` agrees with numpy. -/
noncomputable def vecAdd (v w : List ℝ) : List ℝ := List.zipWith (· + ·) v w

/-- `SegmentGroup.centroid_embedding`: mean of the truthy member embeddings,
empty when there are none. -/
noncomputable def SegmentGroup.centroid_embedding (g : SegmentGroup) : List ℝ :=
  let embs := g.segments.filterMap SegmentNode.embTruthy
  match embs with
  | [] => []
  | e :: rest => (rest.foldl vecAdd e).map (· / (embs.length : ℝ))

/-- `cosine_similarity` from `src/domain/group.py`: 0 when either norm is 0,
else the normalised dot product. -/
noncomputable def cosine_similarity (v1 v2 : List ℝ) : ℝ :=
  let norm1 := Real.sqrt ((v1.map (fun x => x * x)).sum)
  let norm2 := Real.sqrt ((v2.map (fun x => x * x)).sum)
  if norm1 = 0 ∨ norm2 = 0 then 0
  else (List.zipWith (· * ·) v1 v2).sum / (norm1 * norm2)

/-- `GroupingConfig` from `src/config.py`. -/
structure GroupingConfig where
  k_neighbors : ℕ := 8
  neighbor_threshold : ℝ := 0.80
  adjacent_threshold : ℝ := 0.70
  temporal_tau : ℝ := 150.0
  max_group_words : ℕ := 700
  min_group_segments : ℕ := 2
  merge_centroid_threshold : ℝ := 0.85

/-- The default `GroupingConfig()`. -/
def defaultGroupingConfig : GroupingConfig := {}

/-! ## C10: properties of `Neighbor.effective_similarity` -/

/-- **C10.** For every neighbor with `similarity ∈ [0,1]`, every reference
time and every `tau > 0`, the effective similarity lies in `[0, similarity]`,
equals `similarity` when `start_time = ref_time`, and is non-increasing as
`|start_time − ref_time|` grows. -/
theorem effective_similarity_properties (n : Neighbor) (tau : ℝ)
    (hsim0 : 0 ≤ n.similarity) (hsim1 : n.similarity ≤ 1) (htau : 0 < tau) :
    (∀ ref_time : ℝ,
        0 ≤ n.effective_similarity ref_time tau ∧
        n.effective_similarity ref_time tau ≤ n.similarity) ∧
    (∀ ref_time : ℝ, n.start_time = ref_time →
        n.effective_similarity ref_time tau = n.similarity) ∧
    (∀ r1 r2 : ℝ, |n.start_time - r1| ≤ |n.start_time - r2| →
        n.effective_similarity r2 tau ≤ n.effective_similarity r1 tau) := by
  refine ⟨fun ref_time => ⟨?_, ?_⟩, fun ref_time h => ?_, fun r1 r2 h => ?_⟩
  · exact mul_nonneg hsim0 (Real.exp_pos _).le
  · have hexp : Real.exp (-(|n.start_time - ref_time|) / tau) ≤ 1 := by
      rw [Real.exp_le_one_iff]
      apply div_nonpos_of_nonpos_of_nonneg
      · simp
      · exact htau.le
    calc n.effective_similarity ref_time tau
        ≤ n.similarity * 1 := by
          unfold Neighbor.effective_similarity
          exact mul_le_mul_of_nonneg_left hexp hsim0
      _ = n.similarity := mul_one _
  · unfold Neighbor.effective_similarity
    rw [h]
    simp
  · unfold Neighbor.effective_similarity
    have hdiv : |n.start_time - r1| / tau ≤ |n.start_time - r2| / tau := by
      gcongr
    have hneg : -(|n.start_time - r2|) / tau ≤ -(|n.start_time - r1|) / tau := by
      rw [neg_div, neg_div]
      exact neg_le_neg hdiv
    exact mul_le_mul_of_nonneg_left (Real.exp_le_exp.mpr hneg) hsim0

/-- Concrete neighbor for the C10 witness. -/
noncomputable def cNbr : Neighbor :=
  { segment_id := "s", index := 0, similarity := 1/2, start_time := 0,
    end_time := 1, text := "t" }

/-- Witness for C10 at a concrete neighbor (`similarity = 1/2`, `tau = 1`). -/
theorem effective_similarity_properties_witness :
    (0 ≤ cNbr.similarity ∧ cNbr.similarity ≤ 1 ∧ (0:ℝ) < 1) ∧
    ((∀ ref_time : ℝ,
        0 ≤ cNbr.effective_similarity ref_time 1 ∧
        cNbr.effective_similarity ref_time 1 ≤ cNbr.similarity) ∧
     (∀ ref_time : ℝ, cNbr.start_time = ref_time →
        cNbr.effective_similarity ref_time 1 = cNbr.similarity) ∧
     (∀ r1 r2 : ℝ, |cNbr.start_time - r1| ≤ |cNbr.start_time - r2| →
        cNbr.effective_similarity r2 1 ≤ cNbr.effective_similarity r1 1)) :=
  ⟨⟨by norm_num [cNbr], by norm_num [cNbr], by norm_num⟩,
    effective_similarity_properties cNbr 1 (by norm_num [cNbr])
      (by norm_num [cNbr]) (by norm_num)⟩

/-! ## C4: `SegmentRepository._segment_uuid`
(`src/services/vectorstore/segment_repository.py`)

The Python code builds the key `f"{segment.video_id}:{segment.start_s:.6f}"`
and feeds it to `uuid5(NAMESPACE_URL, key)`.  `uuid5` is a fixed deterministic
function of the key; it is modelled here as the key itself (identity on keys),
which preserves exactly the equalities and collisions induced by the key
construction.  `start_s` is modelled as a rational; `%.6f` rounds to six
decimal places (ties, which never occur below, round half up in the model
whereas C `printf` rounds the binary float's decimal expansion to even). -/

/-- The decimal digit character for `n < 10`. -/
def digitChar (n : ℕ) : Char := Char.ofNat (48 + n)

/-- Decimal digits, most significant first, with explicit fuel (the fuel
`n+1` always suffices since a number has at most `n+1` digits). -/
def natDigitsAux (fuel n : ℕ) : List Char :=
  match fuel with
  | 0 => []
  | f+1 =>
    if n < 10 then [digitChar n]
    else natDigitsAux f (n / 10) ++ [digitChar (n % 10)]

/-- Decimal digits of a natural number, most significant first (`%d`). -/
def natDigits (n : ℕ) : List Char := natDigitsAux (n+1) n

/-- Left-pad a digit string with zeros to width 6 (the fractional part of
`%.6f`). -/
def padSix (l : List Char) : List Char :=
  List.replicate (6 - l.length) '0' ++ l

/-- The digit body of a `%.6f` rendering of `n` micro-units. -/
def renderSixBody (n : ℕ) : List Char :=
  natDigits (n / 1000000) ++ ('.' :: padSix (natDigits (n % 1000000)))

/-- `%.6f` rendering of a rational: integer part, a dot, and exactly six
fractional digits, with a leading minus sign for negative values. -/
def renderSixF (q : ℚ) : String :=
  if q < 0 ∧ round (|q| * 1000000) ≠ 0 then
    ⟨'-' :: renderSixBody (round (|q| * 1000000)).toNat⟩
  else
    ⟨renderSixBody (round (|q| * 1000000)).toNat⟩

/-- `SegmentRepository._segment_uuid`: the deterministic key
`video_id ++ ":" ++ start_s rendered with %.6f` (uuid5 modelled as the
identity on keys). -/
def segment_uuid (video_id : String) (start_s : ℚ) : String :=
  video_id ++ ":" ++ renderSixF start_s

/-- Digit characters are never a colon. -/
theorem digitChar_ne_colon (n : ℕ) (h : n < 10) : digitChar n ≠ ':' := by
  interval_cases n <;> decide

/-- No colon occurs among the decimal digits of a natural number. -/
theorem colon_not_mem_natDigitsAux (fuel : ℕ) :
    ∀ n, ':' ∉ natDigitsAux fuel n := by
  induction fuel with
  | zero => intro n; simp [natDigitsAux]
  | succ f ih =>
    intro n hmem
    rw [natDigitsAux] at hmem
    by_cases h : n < 10
    · rw [if_pos h] at hmem
      have h9 := List.mem_singleton.mp hmem
      exact digitChar_ne_colon n h h9.symm
    · rw [if_neg h] at hmem
      rcases List.mem_append.mp hmem with h1 | h2
      · exact ih (n / 10) h1
      · have h9 := List.mem_singleton.mp h2
        exact digitChar_ne_colon (n % 10) (Nat.mod_lt _ (by norm_num)) h9.symm

/-- No colon occurs in the digit body of a `%.6f` rendering. -/
theorem colon_not_mem_renderSixBody (n : ℕ) : ':' ∉ renderSixBody n := by
  intro hmem
  rcases List.mem_append.mp hmem with h1 | h2
  · exact colon_not_mem_natDigitsAux _ _ h1
  · rcases List.mem_cons.mp h2 with h3 | h4
    · exact absurd h3 (by decide)
    · have h5 : ':' ∈ natDigits (n % 1000000) := by
        simpa [padSix] using h4
      exact colon_not_mem_natDigitsAux _ _ h5

/-- No colon occurs in a `%.6f` rendering. -/
theorem colon_not_mem_renderSixF (q : ℚ) : ':' ∉ (renderSixF q).data := by
  unfold renderSixF
  split
  · intro hmem
    rcases List.mem_cons.mp hmem with h1 | h2
    · exact absurd h1 (by decide)
    · exact colon_not_mem_renderSixBody _ h2
  · exact colon_not_mem_renderSixBody _

/-- Splitting a character list at a colon is unambiguous when neither suffix
contains a colon. -/
theorem append_colon_inj (a : List Char) :
    ∀ (a' b b' : List Char), a ++ ':' :: b = a' ++ ':' :: b' →
      ':' ∉ b → ':' ∉ b' → a = a' ∧ b = b' := by
  induction a with
  | nil =>
    intro a' b b' heq hb hb'
    cases a' with
    | nil => simpa using heq
    | cons c t =>
      simp only [List.nil_append, List.cons_append, List.cons.injEq] at heq
      exfalso
      exact hb (heq.2 ▸ List.mem_append_right t (List.mem_cons_self ':' b'))
  | cons c t ih =>
    intro a' b b' heq hb hb'
    cases a' with
    | nil =>
      simp only [List.cons_append, List.nil_append, List.cons.injEq] at heq
      exfalso
      exact hb' (heq.2.symm ▸ List.mem_append_right t (List.mem_cons_self ':' b))
    | cons c' t' =>
      simp only [List.cons_append, List.cons.injEq] at heq
      obtain ⟨h1, h2⟩ := ih t' b b' heq.2 hb hb'
      exact ⟨by rw [heq.1, h1], h2⟩

/-- **C4 (counterexample).** The segment id is NOT injective in
`(video_id, start_s)`: the distinct start times `10⁻⁷` and `2·10⁻⁷` render
identically under `%.6f` and receive the same id. -/
theorem segment_uuid_counterexample :
    segment_uuid "v" (1/10000000) = segment_uuid "v" (2/10000000) ∧
      (1/10000000 : ℚ) ≠ (2/10000000 : ℚ) := by
  constructor
  · have e1 : round (|(1/10000000 : ℚ)| * 1000000) = 0 := by
      have h : |(1/10000000 : ℚ)| = 1/10000000 := abs_of_pos (by norm_num)
      rw [h]
      norm_num [round_eq]
    have e2 : round (|(2/10000000 : ℚ)| * 1000000) = 0 := by
      have h : |(2/10000000 : ℚ)| = 2/10000000 := abs_of_pos (by norm_num)
      rw [h]
      norm_num [round_eq]
    have h1 : renderSixF (1/10000000) = renderSixF (2/10000000) := by
      unfold renderSixF
      rw [e1, e2]
      norm_num
    unfold segment_uuid
    rw [h1]
  · norm_num

/-- **C4 (amended).** The segment id is a deterministic function of
`(video_id, start_s)`, and two ids coincide exactly when the video ids are
equal and the start times have equal `%.6f` renderings (equality of the
start times as numbers is not necessary: collisions such as the
counterexample exist). -/
theorem segment_uuid_eq_iff (v v' : String) (s s' : ℚ) :
    segment_uuid v s = segment_uuid v' s' ↔
      (v = v' ∧ renderSixF s = renderSixF s') := by
  constructor
  · intro h
    have hdata : v.data ++ ':' :: (renderSixF s).data
        = v'.data ++ ':' :: (renderSixF s').data := by
      have hd := congrArg String.data h
      simpa [segment_uuid, String.data_append] using hd
    obtain ⟨h1, h2⟩ := append_colon_inj v.data v'.data _ _ hdata
      (colon_not_mem_renderSixF s) (colon_not_mem_renderSixF s')
    exact ⟨String.ext h1, String.ext h2⟩
  · rintro ⟨rfl, h⟩
    unfold segment_uuid
    rw [h]

/-! ## Python string primitives

Python `str.strip`, `str.lower` and `\s`/`\w` character classes, modelled on
the ASCII range (all inputs below are ASCII; Python additionally handles
non-ASCII whitespace and case, which never occurs here). -/

/-- Python whitespace: the characters stripped by `str.strip()` / matched by
`\s`. -/
def pyIsSpace (c : Char) : Bool :=
  c == ' ' || c == '\t' || c == '\n' || c == '\r' || c == '\x0b' || c == '\x0c'

/-- Python `str.strip()` on a character list. -/
def pyStripList (l : List Char) : List Char :=
  ((l.dropWhile pyIsSpace).reverse.dropWhile pyIsSpace).reverse

/-- Python `str.strip()`. -/
def pyStrip (s : String) : String := ⟨pyStripList s.data⟩

/-- Python `str.lower()` (ASCII). -/
def pyLower (s : String) : String := ⟨s.data.map Char.toLower⟩

/-- Python slicing `s[:n]` (by code points). -/
def pyTake (n : ℕ) (s : String) : String := ⟨s.data.take n⟩

/-- Length of a Python slice `s[:n]`. -/
theorem pyTake_length (n : ℕ) (s : String) :
    (pyTake n s).length = min n s.length := by
  cases s with
  | mk l => simp [pyTake, String.length, List.length_take]

/-- Python `\w` (word character, ASCII view): letters, digits, underscore. -/
def pyIsWord (c : Char) : Bool :=
  c.isAlpha || c.isDigit || c == '_'

/-! ## `Concept` and `Concept.__post_init__` (`src/core/concept_models.py`)

The module `src/domain/concept.py` imported by the detectors is not present
under `src/`; `src/core/concept_models.py` defines the identical classes
(`Concept`, `ConceptMention`, `ConceptType`, `ExtractedConcepts`) and is used
as the authoritative source for them.  Scores are modelled as rationals;
`uuid5` ids as their deterministic key strings. -/

/-- `ConceptType` from `src/core/concept_models.py`. -/
inductive ConceptType where
  | person | organization | technology | method | problem | solution
  | concept | metric | dataset | event | place
deriving DecidableEq, Repr

/-- `Concept` (validated form, after `__post_init__`). -/
structure Concept where
  name : String
  definition : String
  type : ConceptType
  importance : ℚ
  confidence : ℚ
  video_id : String
  group_id : ℕ
  first_mention_time : ℚ
  last_mention_time : ℚ
  mention_count : Int
  aliases : List String := []
  id : String
deriving DecidableEq, Repr

/-- The deterministic uuid5 key `f"{video_id}:{group_id}:{name.lower()}"`
from `Concept._generate_uuid` (uuid5 modelled as the identity on keys). -/
def conceptUuidKey (video_id : String) (group_id : ℕ) (name : String) : String :=
  video_id ++ ":" ++ toString group_id ++ ":" ++ pyLower name

/-- `Concept.__post_init__`: strip and bound-check the name and definition,
clamp the scores, force `mention_count ≥ 1` and fill in the deterministic id.
Raised `ValueError`s are modelled as `Except.error`. -/
def conceptPostInit (name definition : String) (type : ConceptType)
    (importance confidence : ℚ) (video_id : String) (group_id : ℕ)
    (first_mention_time last_mention_time : ℚ) (mention_count : Int)
    (aliases : List String) (idArg : Option String) : Except String Concept :=
  let name := pyStrip name
  if name.length < 2 then
    Except.error ("Concept name too short: " ++ name)
  else
    let name := if 100 < name.length then pyTake 100 name else name
    let definition := pyStrip definition
    if definition.length < 10 then
      Except.error ("Definition too short for " ++ name ++ ": " ++ definition)
    else
      let definition :=
        if 500 < definition.length then pyTake 500 definition else definition
      let importance := max 0 (min 1 importance)
      let confidence := max 0 (min 1 confidence)
      let mention_count := if mention_count < 1 then 1 else mention_count
      let id :=
        match idArg with
        | some i => i
        | none => conceptUuidKey video_id group_id name
      Except.ok
        { name := name, definition := definition, type := type,
          importance := importance, confidence := confidence,
          video_id := video_id, group_id := group_id,
          first_mention_time := first_mention_time,
          last_mention_time := last_mention_time,
          mention_count := mention_count, aliases := aliases, id := id }

/-- **C9.** Every successfully constructed concept has `importance` and
`confidence` in `[0,1]`, name length in `[2,100]` and definition length in
`[10,500]`; construction fails when the stripped name is shorter than 2
characters or the stripped definition shorter than 10. -/
theorem concept_post_init_valid (name definition : String) (type : ConceptType)
    (importance confidence : ℚ) (video_id : String) (group_id : ℕ)
    (fm lm : ℚ) (mc : Int) (aliases : List String) (idArg : Option String) :
    (∀ c : Concept,
      conceptPostInit name definition type importance confidence video_id
          group_id fm lm mc aliases idArg = Except.ok c →
        (0 ≤ c.importance ∧ c.importance ≤ 1) ∧
        (0 ≤ c.confidence ∧ c.confidence ≤ 1) ∧
        (2 ≤ c.name.length ∧ c.name.length ≤ 100) ∧
        (10 ≤ c.definition.length ∧ c.definition.length ≤ 500)) ∧
    ((pyStrip name).length < 2 →
      (conceptPostInit name definition type importance confidence video_id
          group_id fm lm mc aliases idArg).isOk = false) ∧
    ((pyStrip definition).length < 10 →
      (conceptPostInit name definition type importance confidence video_id
          group_id fm lm mc aliases idArg).isOk = false) := by
  refine ⟨?_, ?_, ?_⟩
  · intro c hc
    unfold conceptPostInit at hc
    by_cases h1 : (pyStrip name).length < 2
    · rw [if_pos h1] at hc
      exact absurd hc (by simp)
    rw [if_neg h1] at hc
    by_cases h2 : (pyStrip definition).length < 10
    · rw [if_pos h2] at hc
      exact absurd hc (by simp)
    rw [if_neg h2] at hc
    have hc' := (Except.ok.injEq _ _).mp hc.symm
    subst hc'
    push_neg at h1 h2
    refine ⟨⟨le_max_left _ _, ?_⟩, ⟨le_max_left _ _, ?_⟩, ⟨?_, ?_⟩, ⟨?_, ?_⟩⟩
    · exact max_le (by norm_num) (min_le_left _ _)
    · exact max_le (by norm_num) (min_le_left _ _)
    · by_cases h3 : 100 < (pyStrip name).length
      · simp only [if_pos h3, pyTake_length]
        omega
      · simp only [if_neg h3]
        exact h1
    · by_cases h3 : 100 < (pyStrip name).length
      · simp only [if_pos h3, pyTake_length]
        omega
      · simp only [if_neg h3]
        omega
    · by_cases h4 : 500 < (pyStrip definition).length
      · simp only [if_pos h4, pyTake_length]
        omega
      · simp only [if_neg h4]
        exact h2
    · by_cases h4 : 500 < (pyStrip definition).length
      · simp only [if_pos h4, pyTake_length]
        omega
      · simp only [if_neg h4]
        omega
  · intro h1
    unfold conceptPostInit
    rw [if_pos h1]
    rfl
  · intro h2
    unfold conceptPostInit
    by_cases h1 : (pyStrip name).length < 2
    · rw [if_pos h1]
      rfl
    · rw [if_neg h1, if_pos h2]
      rfl

/-- Witness for C9: a name of length 2, a definition of length 26, and an
out-of-range importance 2 (clamped to 1). -/
theorem concept_post_init_valid_witness :
    (∀ c : Concept,
      conceptPostInit "AI" "A system that can reason." ConceptType.technology
          2 (7/10) "vid" 0 0 1 1 [] none = Except.ok c →
        (0 ≤ c.importance ∧ c.importance ≤ 1) ∧
        (0 ≤ c.confidence ∧ c.confidence ≤ 1) ∧
        (2 ≤ c.name.length ∧ c.name.length ≤ 100) ∧
        (10 ≤ c.definition.length ∧ c.definition.length ≤ 500)) ∧
    ((pyStrip "x").length < 2 →
      (conceptPostInit "x" "A system that can reason." ConceptType.technology
          2 (7/10) "vid" 0 0 1 1 [] none).isOk = false) ∧
    ((pyStrip "short").length < 10 →
      (conceptPostInit "AI" "short" ConceptType.technology
          2 (7/10) "vid" 0 0 1 1 [] none).isOk = false) :=
  ⟨(concept_post_init_valid "AI" "A system that can reason."
      ConceptType.technology 2 (7/10) "vid" 0 0 1 1 [] none).1,
   (concept_post_init_valid "x" "A system that can reason."
      ConceptType.technology 2 (7/10) "vid" 0 0 1 1 [] none).2.1,
   (concept_post_init_valid "AI" "short"
      ConceptType.technology 2 (7/10) "vid" 0 0 1 1 [] none).2.2⟩

/-! ## C8: the segment assembler (`src/core/punctuation_worker.py`)

`_merge_words_with_timestamps`, `_words_to_sentences` and
`_sentences_to_segments`, with word times as rationals. -/

/-- Python `" ".join(...)`. -/
def joinSpace : List String → String
  | [] => ""
  | [w] => w
  | w :: rest => w ++ " " ++ joinSpace (rest)

/-- A punctuated word with its timestamps (the dicts produced by
`_merge_words_with_timestamps`). -/
structure TimedWord where
  text : String
  start : ℚ
  stop : ℚ
deriving Repr

/-- A sentence payload (`_build_sentence`). -/
structure Sentence where
  text : String
  start : ℚ
  stop : ℚ
  token_count : ℕ
deriving Repr

/-- `TranscriptSegment` from `src/core/transcript_models.py`. -/
structure TranscriptSegment where
  video_id : String
  text : String
  start_s : ℚ
  end_s : ℚ
  tokens : ℕ
deriving Repr

/-- `_merge_words_with_timestamps`: pair each punctuated word with its
timeline entry, truncating to the shorter of the two lists. -/
def mergeWordsWithTimestamps (word_timeline : List (ℚ × ℚ))
    (punctuated_words : List String) : List TimedWord :=
  List.zipWith (fun t w => { text := w, start := t.1, stop := t.2 })
    word_timeline punctuated_words

/-- The apostrophe character, code point 39. -/
def apostChar : Char := Char.ofNat 39

/-- The closing quotes/brackets stripped before the sentence-end test in
`_word_ends_sentence`: double quote, apostrophe, closing paren, bracket,
brace and the four closing typographic quote marks of the source string. -/
def isCloser (c : Char) : Bool :=
  c == '"' || c == apostChar || c == ')' || c == ']' || c == '\x7d' ||
  c == '»' || c == '”' || c == '’' || c == '›'

/-- `_word_ends_sentence`: after right-stripping closers, the last character
is `.`, `!` or `?`. -/
def wordEndsSentence (w : String) : Bool :=
  let trimmed := (w.data.reverse.dropWhile isCloser).reverse
  match trimmed.getLast? with
  | some c => c == '.' || c == '!' || c == '?'
  | none => false

/-- `_build_sentence`: join the words, take the first start and last end. -/
def buildSentence (words : List TimedWord) : Sentence :=
  { text := joinSpace (words.map TimedWord.text),
    start := ((words.head?).map TimedWord.start).getD 0,
    stop := ((words.getLast?).map TimedWord.stop).getD 0,
    token_count := words.length }

/-- The loop of `_words_to_sentences`, carrying the `current` buffer. -/
def wordsToSentencesGo (current : List TimedWord) :
    List TimedWord → List Sentence
  | [] => match current with
    | [] => []
    | _ => [buildSentence current]
  | e :: rest =>
    if wordEndsSentence e.text then
      buildSentence (current ++ [e]) :: wordsToSentencesGo [] rest
    else
      wordsToSentencesGo (current ++ [e]) rest

/-- `_words_to_sentences`. -/
def wordsToSentences (words : List TimedWord) : List Sentence :=
  wordsToSentencesGo [] words

/-- Build one emitted segment from the `current` sentence buffer. -/
def mkSegmentOf (video_id : String) (current : List Sentence)
    (token_count : ℕ) : TranscriptSegment :=
  { video_id := video_id,
    text := joinSpace (current.map Sentence.text),
    start_s := ((current.head?).map Sentence.start).getD 0,
    end_s := ((current.getLast?).map Sentence.stop).getD 0,
    tokens := token_count }

/-- The loop of `_sentences_to_segments`, carrying `current` and
`token_count`. -/
def sentencesToSegmentsGo (video_id : String) (min_tokens max_tokens : ℕ)
    (current : List Sentence) (token_count : ℕ) :
    List Sentence → List TranscriptSegment
  | [] => match current with
    | [] => []
    | _ => [mkSegmentOf video_id current token_count]
  | s :: rest =>
    if !current.isEmpty && min_tokens ≤ token_count
        && max_tokens < token_count + s.token_count then
      mkSegmentOf video_id current token_count ::
        sentencesToSegmentsGo video_id min_tokens max_tokens [s]
          s.token_count rest
    else
      sentencesToSegmentsGo video_id min_tokens max_tokens (current ++ [s])
        (token_count + s.token_count) rest

/-- `_sentences_to_segments` with the default soft bounds
`min_tokens = 120`, `max_tokens = 320`. -/
def sentencesToSegments (sentences : List Sentence) (video_id : String)
    (min_tokens : ℕ := 120) (max_tokens : ℕ := 320) : List TranscriptSegment :=
  sentencesToSegmentsGo video_id min_tokens max_tokens [] 0 sentences

/-- The composed segment assembler of `PunctuationWorker.__call__` steps
(timed-word merge, sentence grouping, segment chunking). -/
def assembleSegments (word_timeline : List (ℚ × ℚ))
    (punctuated_words : List String) (video_id : String) :
    List TranscriptSegment :=
  sentencesToSegments
    (wordsToSentences (mergeWordsWithTimestamps word_timeline punctuated_words))
    video_id

/-- A monotone word timeline: starts are non-decreasing and each word starts
no later than it ends. -/
def wordTimelineMonotone (tl : List (ℚ × ℚ)) : Prop :=
  List.Chain' (fun a b => a.1 ≤ b.1) tl ∧ ∀ p ∈ tl, p.1 ≤ p.2

/-- `joinSpace` on a cons with a non-empty tail. -/
theorem joinSpace_cons (w : String) (l : List String) (h : l ≠ []) :
    joinSpace (w :: l) = w ++ " " ++ joinSpace l := by
  cases l with
  | nil => exact absurd rfl h
  | cons x xs => rfl

/-- `joinSpace` distributes over append of non-empty lists. -/
theorem joinSpace_append (A B : List String) (hA : A ≠ []) (hB : B ≠ []) :
    joinSpace (A ++ B) = joinSpace A ++ " " ++ joinSpace B := by
  induction A with
  | nil => exact absurd rfl hA
  | cons a as ih =>
    cases as with
    | nil =>
      cases B with
      | nil => exact absurd rfl hB
      | cons b bs => rfl
    | cons a' as' =>
      have h1 : (a' :: as') ++ B ≠ [] := by simp
      rw [List.cons_append, joinSpace_cons a _ h1,
        joinSpace_cons a (a' :: as') (by simp), ih (by simp)]
      simp [String.append_assoc]

/-- `joinSpace` of a singleton. -/
@[simp]
theorem joinSpace_singleton (w : String) : joinSpace [w] = w := rfl

/-- The sentence loop never returns an empty list on a non-empty input. -/
theorem wordsToSentencesGo_ne_nil (l : List TimedWord) :
    ∀ current, current ++ l ≠ [] → wordsToSentencesGo current l ≠ [] := by
  induction l with
  | nil =>
    intro current h
    cases current with
    | nil => simp at h
    | cons c cs => simp [wordsToSentencesGo]
  | cons e rest ih =>
    intro current _
    rw [wordsToSentencesGo]
    by_cases hend : wordEndsSentence e.text
    · simp [hend]
    · simpa [hend] using ih (current ++ [e]) (by simp)

/-- Text preservation for the sentence loop: the join of the produced
sentence texts is the join of all buffered and remaining word texts. -/
theorem wordsToSentencesGo_join (l : List TimedWord) :
    ∀ current,
      joinSpace ((wordsToSentencesGo current l).map Sentence.text)
        = joinSpace ((current ++ l).map TimedWord.text) := by
  induction l with
  | nil =>
    intro current
    cases current with
    | nil => rfl
    | cons c cs => simp [wordsToSentencesGo, buildSentence]
  | cons e rest ih =>
    intro current
    rw [wordsToSentencesGo]
    by_cases hend : wordEndsSentence e.text
    · rw [if_pos hend]
      cases hrest : rest with
      | nil =>
        simp [buildSentence, wordsToSentencesGo]
      | cons r rs =>
        have hne : wordsToSentencesGo [] rest ≠ [] := by
          rw [hrest]
          exact wordsToSentencesGo_ne_nil (r :: rs) [] (by simp)
        rw [← hrest]
        have hne2 : (wordsToSentencesGo [] rest).map Sentence.text ≠ [] := by
          simpa using hne
        rw [List.map_cons, joinSpace_cons _ _ hne2, ih [], List.nil_append]
        have hr : rest.map TimedWord.text ≠ [] := by
          rw [hrest]
          simp
        rw [show current ++ e :: rest = (current ++ [e]) ++ rest by simp,
          List.map_append, joinSpace_append _ _ (by simp) hr]
        simp [buildSentence]
    · rw [if_neg hend, ih (current ++ [e])]
      simp

/-- The segment loop never returns an empty list on a non-empty input. -/
theorem sentencesToSegmentsGo_ne_nil (vid : String) (mn mx : ℕ)
    (l : List Sentence) :
    ∀ current tc, current ++ l ≠ [] →
      sentencesToSegmentsGo vid mn mx current tc l ≠ [] := by
  induction l with
  | nil =>
    intro current tc h
    cases current with
    | nil => simp at h
    | cons c cs => simp [sentencesToSegmentsGo]
  | cons s rest ih =>
    intro current tc _
    rw [sentencesToSegmentsGo]
    by_cases hf : (!current.isEmpty && decide (mn ≤ tc)
        && decide (mx < tc + s.token_count)) = true
    · simp only [hf, if_true]
      simp
    · rw [if_neg hf]
      exact ih (current ++ [s]) (tc + s.token_count) (by simp)

/-- Text preservation for the segment loop. -/
theorem sentencesToSegmentsGo_join (vid : String) (mn mx : ℕ)
    (l : List Sentence) :
    ∀ current tc,
      joinSpace ((sentencesToSegmentsGo vid mn mx current tc l).map
          TranscriptSegment.text)
        = joinSpace ((current ++ l).map Sentence.text) := by
  induction l with
  | nil =>
    intro current tc
    cases current with
    | nil => rfl
    | cons c cs => simp [sentencesToSegmentsGo, mkSegmentOf]
  | cons s rest ih =>
    intro current tc
    rw [sentencesToSegmentsGo]
    by_cases hf : (!current.isEmpty && decide (mn ≤ tc)
        && decide (mx < tc + s.token_count)) = true
    · rw [if_pos hf]
      have hcur : current ≠ [] := by
        intro hc
        subst hc
        simp at hf
      have hne : sentencesToSegmentsGo vid mn mx [s] s.token_count rest
          ≠ [] :=
        sentencesToSegmentsGo_ne_nil vid mn mx rest [s] s.token_count
          (by simp)
      have hne2 : (sentencesToSegmentsGo vid mn mx [s] s.token_count
          rest).map TranscriptSegment.text ≠ [] := by
        simpa using hne
      rw [List.map_cons, joinSpace_cons _ _ hne2, ih [s] s.token_count]
      simp only [List.singleton_append]
      rw [List.map_append,
        joinSpace_append _ _ (by simpa using hcur) (by simp)]
      simp [mkSegmentOf]
    · rw [if_neg hf, ih (current ++ [s]) (tc + s.token_count)]
      simp

/-- Dropping the timeline component of the zip leaves a truncated word
list. -/
theorem mergeWords_map_text (tl : List (ℚ × ℚ)) (ws : List String) :
    (mergeWordsWithTimestamps tl ws).map TimedWord.text = ws.take tl.length := by
  induction tl generalizing ws with
  | nil => simp [mergeWordsWithTimestamps]
  | cons t ts ih =>
    cases ws with
    | nil => simp [mergeWordsWithTimestamps]
    | cons w rest =>
      simpa [mergeWordsWithTimestamps] using ih rest

/-- `take` at the min of the length. -/
theorem take_min_length (ws : List String) (n : ℕ) :
    ws.take (min n ws.length) = ws.take n := by
  rcases le_total n ws.length with h | h
  · rw [min_eq_left h]
  · rw [min_eq_right h, List.take_length, List.take_of_length_le h]

/-- **C8.** For every monotone word timeline and every punctuated word list,
the assembled segments' texts, joined by spaces, equal the space-join of the
punctuated words truncated to the shorter of the two input lengths. -/
theorem segment_assembler_text (tl : List (ℚ × ℚ)) (ws : List String)
    (vid : String) (hmono : wordTimelineMonotone tl) :
    joinSpace ((assembleSegments tl ws vid).map TranscriptSegment.text)
      = joinSpace (ws.take (min tl.length ws.length)) := by
  unfold assembleSegments sentencesToSegments wordsToSentences
  rw [sentencesToSegmentsGo_join, List.nil_append,
    wordsToSentencesGo_join, List.nil_append,
    mergeWords_map_text, take_min_length]

/-- Witness for C8: a two-word timeline with three punctuated words
(truncated to two). -/
theorem segment_assembler_text_witness :
    wordTimelineMonotone [((0:ℚ), (1:ℚ)), (1, 2)] ∧
    joinSpace ((assembleSegments [((0:ℚ), (1:ℚ)), (1, 2)]
        ["Hello,", "world.", "lost"] "vid").map TranscriptSegment.text)
      = joinSpace (["Hello,", "world.", "lost"].take
          (min ([((0:ℚ), (1:ℚ)), (1, 2)].length)
            (["Hello,", "world.", "lost"].length))) :=
  ⟨⟨by simp, by intro p hp; fin_cases hp <;> norm_num⟩,
    segment_assembler_text [((0:ℚ), (1:ℚ)), (1, 2)]
      ["Hello,", "world.", "lost"] "vid"
      ⟨by simp, by intro p hp; fin_cases hp <;> norm_num⟩⟩

/-! ## The grouping pipeline
(`boundary_detector.py`, `grouping_service.py`, `group_merger.py`) -/

/-- `BoundaryDetector._compute_cohesion`: effective similarity (at the left
segment's start, with the configured tau) of the first neighbor entry of
`current` whose id equals `next_seg.id`; 0 when no such entry exists. -/
noncomputable def computeCohesion (cfg : GroupingConfig)
    (current next_seg : SegmentNode) : ℝ :=
  match current.neighbors.find? (fun nb => nb.segment_id == next_seg.id) with
  | some nb => nb.effective_similarity current.start_time cfg.temporal_tau
  | none => 0

open Classical in
/-- The loop of `BoundaryDetector.detect_boundaries`: `i` is the index (in
the full list) of the head of the remaining suffix, `wc` the running word
count. -/
noncomputable def detectBoundariesGo (cfg : GroupingConfig) :
    ℕ → ℕ → List SegmentNode → List ℕ
  | _, _, [] => []
  | _, _, [_] => []
  | i, wc, s :: s' :: rest =>
    if computeCohesion cfg s s' < cfg.adjacent_threshold ∨
        cfg.max_group_words ≤ wc + s.word_count then
      (i+1) :: detectBoundariesGo cfg (i+1) 0 (s' :: rest)
    else
      detectBoundariesGo cfg (i+1) (wc + s.word_count) (s' :: rest)

/-- `BoundaryDetector.detect_boundaries`: the boundary list always starts
with 0. -/
noncomputable def detect_boundaries (cfg : GroupingConfig)
    (segments : List SegmentNode) : List ℕ :=
  0 :: detectBoundariesGo cfg 0 0 segments

/-- Python slice `l[b:e]` on segment lists (clamping, empty when `e ≤ b`). -/
def pySlice (l : List SegmentNode) (b e : ℕ) : List SegmentNode :=
  (l.drop b).take (e - b)

/-- The chunk list built by `GroupingService._form_groups` from the boundary
list: for each `group_idx`, `segments[boundaries[idx] : boundaries[idx+1]]`,
with the final chunk running to the end of the list. -/
def chunksOf (segments : List SegmentNode) : List ℕ → List (List SegmentNode)
  | [] => []
  | [b] => [segments.drop b]
  | b :: b' :: rest => pySlice segments b b' :: chunksOf segments (b' :: rest)

/-- Set `seg.group_id = gid` on every segment of a chunk. -/
def assignGid (gid : ℕ) (l : List SegmentNode) : List SegmentNode :=
  l.map (fun s => { s with group_id := some (gid : Int) })

/-- Create a `SegmentGroup` as `_form_groups` does (`group_id = len(groups)`,
member segments stamped with it). -/
def mkGroupOf (gid : ℕ) (chunk : List SegmentNode) (vid : String) :
    SegmentGroup :=
  { group_id := gid, segments := assignGid gid chunk, video_id := vid }

/-- Extend the last accumulated group with a small chunk (the merge-with-
previous branch of `_form_groups`). -/
def extendLast (acc : List SegmentGroup) (c : List SegmentNode) :
    List SegmentGroup :=
  match acc.getLast? with
  | none => acc
  | some g =>
    acc.dropLast ++
      [{ g with segments := g.segments ++ assignGid g.group_id c }]

open Classical in
/-- The loop of `GroupingService._form_groups` over the chunk list: a chunk
smaller than `min_group_segments` that is not the last chunk is merged into
the previous group when that keeps it within `1.2 · max_group_words`;
otherwise a new group is created. -/
noncomputable def formGroupsGo (cfg : GroupingConfig) (vid : String)
    (acc : List SegmentGroup) : List (List SegmentNode) → List SegmentGroup
  | [] => acc
  | c :: rest =>
    if c.length < cfg.min_group_segments ∧ rest ≠ [] ∧
        (match acc.getLast? with
         | some g =>
            ((g.total_words + (c.map SegmentNode.word_count).sum : ℕ) : ℝ)
              ≤ (cfg.max_group_words : ℝ) * 1.2
         | none => False) then
      formGroupsGo cfg vid (extendLast acc c) rest
    else
      formGroupsGo cfg vid (acc ++ [mkGroupOf acc.length c vid]) rest

/-- `GroupingService._form_groups`. -/
noncomputable def formGroups (cfg : GroupingConfig)
    (segments : List SegmentNode) : List SegmentGroup :=
  formGroupsGo cfg
    (match segments.head? with | some s => s.video_id | none => "") []
    (chunksOf segments (detect_boundaries cfg segments))

open Classical in
/-- `GroupMerger._should_merge`: combined words within `1.25·max`, both
centroids non-empty, centroid cosine at least the merge threshold. -/
noncomputable def shouldMerge (cfg : GroupingConfig)
    (g1 g2 : SegmentGroup) : Prop :=
  ((g1.total_words + g2.total_words : ℕ) : ℝ)
      ≤ (cfg.max_group_words : ℝ) * 1.25 ∧
  g1.centroid_embedding ≠ [] ∧ g2.centroid_embedding ≠ [] ∧
  cfg.merge_centroid_threshold
    ≤ cosine_similarity g1.centroid_embedding g2.centroid_embedding

/-- Merge two adjacent groups (`merge_groups` body): the second group's
segments are appended and stamped with the first group's id. -/
def mergeTwo (g1 g2 : SegmentGroup) : SegmentGroup :=
  { g1 with segments := g1.segments ++ assignGid g1.group_id g2.segments }

open Classical in
/-- The single sweep of `GroupMerger.merge_groups`: a merged pair is not
reconsidered against the following group. -/
noncomputable def mergeGroupsLoop (cfg : GroupingConfig) :
    List SegmentGroup → List SegmentGroup
  | [] => []
  | [g] => [g]
  | g :: g' :: rest =>
    if shouldMerge cfg g g' then
      mergeTwo g g' :: mergeGroupsLoop cfg rest
    else
      g :: mergeGroupsLoop cfg (g' :: rest)

/-- The renumbering pass at the end of `merge_groups`: dense `group_id` from
0 propagated to every member segment. -/
def renumber (groups : List SegmentGroup) : List SegmentGroup :=
  groups.mapIdx (fun idx g =>
    { g with group_id := idx, segments := assignGid idx g.segments })

/-- `GroupMerger.merge_groups`. -/
noncomputable def merge_groups (cfg : GroupingConfig)
    (groups : List SegmentGroup) : List SegmentGroup :=
  renumber (mergeGroupsLoop cfg groups)

open Classical in
/-- The neighbor-population step of `_build_neighborhoods` for one segment
with a truthy embedding: query the store, drop the self row and rows below
`neighbor_threshold`, and record each kept row's index in the segment
list (−1 when absent). -/
noncomputable def neighborsFor (search : List ℝ → String → ℕ → List Neighbor)
    (cfg : GroupingConfig) (segments : List SegmentNode)
    (segment : SegmentNode) (emb : List ℝ) : SegmentNode :=
  let keep : Neighbor → Option Neighbor := fun nb =>
    if nb.segment_id == segment.id then none
    else if nb.similarity < cfg.neighbor_threshold then none
    else some { nb with index :=
      (match segments.findIdx? (fun s => s.id == nb.segment_id) with
       | some j => (j : Int)
       | none => -1) }
  { segment with neighbors :=
      (search emb segment.video_id (cfg.k_neighbors + 1)).filterMap keep }

/-- `GroupingService._build_neighborhoods`, parameterised by the store's
k-NN query (`SegmentRepository.search_neighbors`): segments without a truthy
embedding are skipped. -/
noncomputable def buildNeighborhoods
    (search : List ℝ → String → ℕ → List Neighbor) (cfg : GroupingConfig)
    (segments : List SegmentNode) : List SegmentNode :=
  segments.map (fun segment =>
    match segment.embTruthy with
    | none => segment
    | some emb => neighborsFor search cfg segments segment emb)

/-- `GroupingService.group_video` from the point where the segments have
been fetched (the store fetch itself is external): neighborhoods, group
formation, merge pass.  Returns `[]` for an empty segment list. -/
noncomputable def groupVideo (search : List ℝ → String → ℕ → List Neighbor)
    (cfg : GroupingConfig) (segments : List SegmentNode) :
    List SegmentGroup :=
  if segments.isEmpty then []
  else merge_groups cfg (formGroups cfg (buildNeighborhoods search cfg segments))

/-! ## C6: boundary detection against its specification -/

/-- Word count of the segment at index `i` (0 out of range). -/
def wordAt (segments : List SegmentNode) (i : ℕ) : ℕ :=
  ((segments[i]?).map SegmentNode.word_count).getD 0

/-- The cohesion of the adjacent pair `(s_i, s_{i+1})` (0 out of range). -/
noncomputable def cohesionAt (cfg : GroupingConfig)
    (segments : List SegmentNode) (i : ℕ) : ℝ :=
  match segments[i]?, segments[i+1]? with
  | some s, some s' => computeCohesion cfg s s'
  | _, _ => 0

open Classical in
/-- Spec-side running word count, written from the claim's words: the value
tested at pair `(s_i, s_{i+1})`, accumulated in temporal order and reset to 0
after each inserted boundary. -/
noncomputable def wcSpec (cfg : GroupingConfig) (segments : List SegmentNode) :
    ℕ → ℕ
  | 0 => wordAt segments 0
  | i+1 =>
    (if cohesionAt cfg segments i < cfg.adjacent_threshold ∨
        cfg.max_group_words ≤ wcSpec cfg segments i then 0
     else wcSpec cfg segments i) + wordAt segments (i+1)

/-- Spec-side boundary condition between `s_i` and `s_{i+1}`: cohesion below
`adjacent_threshold` OR running word count at least `max_group_words`. -/
def splitSpec (cfg : GroupingConfig) (segments : List SegmentNode)
    (i : ℕ) : Prop :=
  cohesionAt cfg segments i < cfg.adjacent_threshold ∨
  cfg.max_group_words ≤ wcSpec cfg segments i

open Classical in
/-- The boundary list as the claim words it: index 0 first (the first segment
always starts a group), then `i+1` for exactly the adjacent pairs
`(s_i, s_{i+1})` meeting the split condition. -/
noncomputable def boundariesSpec (cfg : GroupingConfig)
    (segments : List SegmentNode) : List ℕ :=
  0 :: (List.range (segments.length - 1)).filterMap
    (fun i => if splitSpec cfg segments i then some (i+1) else none)

open Classical in
/-- The boundary loop computes the spec-side boundary list over the
remaining index range, given the running-count invariant. -/
theorem detectBoundariesGo_eq (cfg : GroupingConfig)
    (segs : List SegmentNode) :
    ∀ (l : List SegmentNode) (i wc : ℕ), segs.drop i = l →
      wc + wordAt segs i = wcSpec cfg segs i →
      detectBoundariesGo cfg i wc l
        = (List.range' (i) (segs.length - 1 - i)).filterMap
            (fun j => if splitSpec cfg segs j then some (j+1) else none) := by
  intro l
  induction l with
  | nil =>
    intro i wc h _
    have hlen : segs.length - i = 0 := by
      have h' := congrArg List.length h
      rw [List.length_drop] at h'
      simpa using h'
    have hk : segs.length - 1 - i = 0 := by omega
    rw [hk]
    rfl
  | cons s tail ih =>
    intro i wc h hinv
    have ha : segs[i]? = some s := by
      have h0 := List.getElem?_drop segs i 0
      rw [h] at h0
      simpa using h0.symm
    cases tail with
    | nil =>
      have hlen : segs.length - i = 1 := by
        have h' := congrArg List.length h
        rw [List.length_drop] at h'
        simpa using h'
      have hk : segs.length - 1 - i = 0 := by omega
      rw [hk]
      rfl
    | cons s' rest =>
      have hlen : segs.length - i = rest.length + 2 := by
        have h' := congrArg List.length h
        rw [List.length_drop] at h'
        simpa using h'
      have hb : segs[i+1]? = some s' := by
        have h1 := List.getElem?_drop segs i 1
        rw [h] at h1
        simpa using h1.symm
      have hdrop : segs.drop (i+1) = s' :: rest := by
        have h2 : (segs.drop i).drop 1 = segs.drop (i + 1) := by
          rw [List.drop_drop]
        rw [← h2, h]
        rfl
      have hwa : wordAt segs i = s.word_count := by
        simp [wordAt, ha]
      have hcoh : cohesionAt cfg segs i = computeCohesion cfg s s' := by
        simp [cohesionAt, ha, hb]
      have hwc : wc + s.word_count = wcSpec cfg segs i := by
        rw [← hinv, hwa]
      have hk : segs.length - 1 - i = (segs.length - 1 - (i+1)) + 1 := by
        omega
      rw [hk, List.range'_succ, detectBoundariesGo]
      by_cases hsplit : splitSpec cfg segs i
      · have hcond : computeCohesion cfg s s' < cfg.adjacent_threshold ∨
            cfg.max_group_words ≤ wc + s.word_count := by
          rw [← hcoh, hwc]
          exact hsplit
        rw [if_pos hcond, List.filterMap_cons, if_pos hsplit]
        congr 1
        apply ih (i+1) 0 hdrop
        have hsplit' : cohesionAt cfg segs i < cfg.adjacent_threshold ∨
            cfg.max_group_words ≤ wcSpec cfg segs i := hsplit
        rw [wcSpec, if_pos hsplit']
      · have hcond : ¬(computeCohesion cfg s s' < cfg.adjacent_threshold ∨
            cfg.max_group_words ≤ wc + s.word_count) := by
          rw [← hcoh, hwc]
          exact hsplit
        rw [if_neg hcond, List.filterMap_cons, if_neg hsplit]
        apply ih (i+1) (wc + s.word_count) hdrop
        have hsplit' : ¬(cohesionAt cfg segs i < cfg.adjacent_threshold ∨
            cfg.max_group_words ≤ wcSpec cfg segs i) := hsplit
        rw [wcSpec, if_neg hsplit', hwc]

/-- **C6.** Boundary detection walks segments in temporal order with a
running word count, inserting a boundary between `s_i` and `s_{i+1}` (and
resetting the count) exactly when the cohesion of the pair (the effective
similarity of the neighbor entry of `s_i` matching `s_{i+1}`, 0 when absent)
is below `adjacent_threshold` or the running count has reached
`max_group_words`; the returned list begins with index 0. -/
theorem detect_boundaries_spec (cfg : GroupingConfig)
    (segments : List SegmentNode) :
    detect_boundaries cfg segments = boundariesSpec cfg segments := by
  unfold detect_boundaries boundariesSpec
  congr 1
  have h := detectBoundariesGo_eq cfg segments segments 0 0 (by simp)
    (by rw [wcSpec]; simp)
  rw [h, List.range_eq_range']
  norm_num

/-! ## C2: the pipeline on a video with no embeddings -/

/-- First concrete embedding-less segment. -/
noncomputable def seg0 : SegmentNode :=
  { id := "s0", video_id := "v", index := 0, text := "a", start_time := 0,
    end_time := 1, word_count := 1 }

/-- Second concrete embedding-less segment. -/
noncomputable def seg1 : SegmentNode :=
  { id := "s1", video_id := "v", index := 1, text := "b", start_time := 1,
    end_time := 2, word_count := 1 }

/-- Mapping a per-segment step that only acts on truthy embeddings is the
identity on embedding-less lists. -/
theorem map_embTruthy_none (F : SegmentNode → List ℝ → SegmentNode)
    (l : List SegmentNode) (h : ∀ s ∈ l, s.embTruthy = none) :
    l.map (fun s =>
      match s.embTruthy with
      | none => s
      | some emb => F s emb) = l := by
  induction l with
  | nil => rfl
  | cons s rest ih =>
    rw [List.map_cons, h s (by simp), ih (fun x hx => h x (by simp [hx]))]

/-- Neighborhood construction leaves embedding-less segments untouched. -/
theorem buildNeighborhoods_no_embedding
    (f : List ℝ → String → ℕ → List Neighbor) (cfg : GroupingConfig)
    (segs : List SegmentNode) (hemb : ∀ s ∈ segs, s.embedding = none) :
    buildNeighborhoods f cfg segs = segs := by
  unfold buildNeighborhoods
  exact map_embTruthy_none (neighborsFor f cfg segs) segs
    (fun s hs => by simp [SegmentNode.embTruthy, hemb s hs])

/-- With empty neighborhoods and a positive adjacency threshold, every
adjacent pair is split. -/
theorem detectBoundariesGo_no_neighbors (cfg : GroupingConfig)
    (hthr : 0 < cfg.adjacent_threshold) :
    ∀ (l : List SegmentNode) (i wc : ℕ), (∀ s ∈ l, s.neighbors = []) →
      detectBoundariesGo cfg i wc l = List.range' (i+1) (l.length - 1) := by
  intro l
  induction l with
  | nil => intro i wc _; rfl
  | cons s tail ih =>
    intro i wc hn
    cases tail with
    | nil => rfl
    | cons s' rest =>
      have hcoh : computeCohesion cfg s s' = 0 := by
        have hs : s.neighbors = [] := hn s (by simp)
        simp [computeCohesion, hs]
      rw [detectBoundariesGo,
        if_pos (Or.inl (by rw [hcoh]; exact hthr)),
        ih (i+1) 0 (fun x hx => hn x (by simp [hx]))]
      simp [List.range'_succ]

/-- The centroid of a group whose members all lack embeddings is empty. -/
theorem centroid_no_embedding (g : SegmentGroup)
    (h : ∀ s ∈ g.segments, s.embedding = none) :
    g.centroid_embedding = [] := by
  unfold SegmentGroup.centroid_embedding
  have hfm : g.segments.filterMap SegmentNode.embTruthy = [] := by
    rw [List.filterMap_eq_nil_iff]
    intro s hs
    simp [SegmentNode.embTruthy, h s hs]
  simp only [hfm]

/-- The merge sweep merges nothing when no segment has an embedding. -/
theorem mergeGroupsLoop_no_embedding (cfg : GroupingConfig) :
    ∀ (groups : List SegmentGroup),
      (∀ g ∈ groups, ∀ s ∈ g.segments, s.embedding = none) →
      mergeGroupsLoop cfg groups = groups
  | [], _ => rfl
  | [g], _ => rfl
  | g :: g' :: rest, h => by
    have hnm : ¬ shouldMerge cfg g g' := by
      intro hm
      exact hm.2.1 (centroid_no_embedding g (h g (by simp)))
    rw [mergeGroupsLoop, if_neg hnm,
      mergeGroupsLoop_no_embedding cfg (g' :: rest)
        (fun x hx => h x (by simp at hx ⊢; tauto))]

/-- **C2 (counterexample).** A two-segment video with no embeddings yields
TWO groups under the default configuration, not one: every pair is split and
the single-sweep merge cannot act on empty centroids. -/
theorem grouping_no_embedding_counterexample :
    ([seg0, seg1] : List SegmentNode) ≠ [] ∧
    (∀ s ∈ ([seg0, seg1] : List SegmentNode), s.embedding = none) ∧
    (groupVideo (fun _ _ _ => []) defaultGroupingConfig [seg0, seg1]).length
      = 2 := by
  have hemb : ∀ s ∈ ([seg0, seg1] : List SegmentNode), s.embedding = none := by
    intro s hs
    simp at hs
    rcases hs with rfl | rfl <;> rfl
  refine ⟨by simp, hemb, ?_⟩
  unfold groupVideo
  rw [if_neg (by simp)]
  rw [buildNeighborhoods_no_embedding _ _ _ hemb]
  have hdb : detect_boundaries defaultGroupingConfig [seg0, seg1] = [0, 1] := by
    unfold detect_boundaries
    rw [detectBoundariesGo_no_neighbors _ (by norm_num [defaultGroupingConfig])
      _ 0 0 (by intro s hs; simp at hs; rcases hs with rfl | rfl <;> rfl)]
    rfl
  unfold formGroups
  rw [hdb]
  have hch : chunksOf [seg0, seg1] [0, 1] = [[seg0], [seg1]] := rfl
  rw [hch]
  have hfg : formGroupsGo defaultGroupingConfig "v" [] [[seg0], [seg1]]
      = [mkGroupOf 0 [seg0] "v", mkGroupOf 1 [seg1] "v"] := by
    rw [formGroupsGo, if_neg (by simp)]
    rw [formGroupsGo, if_neg (by simp)]
    rfl
  have hhd : (match ([seg0, seg1] : List SegmentNode).head? with
      | some s => s.video_id | none => "") = "v" := rfl
  rw [hhd, hfg]
  unfold merge_groups
  rw [mergeGroupsLoop_no_embedding defaultGroupingConfig _ (by
    intro g hg s hs
    simp at hg
    rcases hg with rfl | rfl <;>
    · simp [mkGroupOf, assignGid] at hs
      subst hs
      rfl)]
  simp [renumber]

/-- **C2 (amended).** When no fetched segment has an embedding (and so all
neighborhoods are empty) and `adjacent_threshold > 0`: neighborhood
construction is the identity, boundary detection splits at every index
(`boundaries = [0, 1, …, n−1]`), and the centroid merge pass merges nothing
on embedding-less groups; the pipeline does not in general return a single
group — the group count is governed by the small-group merge rule alone. -/
theorem grouping_no_embedding_amended
    (f : List ℝ → String → ℕ → List Neighbor) (cfg : GroupingConfig)
    (segs : List SegmentNode) (groups : List SegmentGroup)
    (hne : segs ≠ [])
    (hemb : ∀ s ∈ segs, s.embedding = none)
    (hnbr : ∀ s ∈ segs, s.neighbors = [])
    (hthr : 0 < cfg.adjacent_threshold)
    (hgemb : ∀ g ∈ groups, ∀ s ∈ g.segments, s.embedding = none) :
    buildNeighborhoods f cfg segs = segs ∧
    detect_boundaries cfg segs = List.range segs.length ∧
    mergeGroupsLoop cfg groups = groups := by
  refine ⟨buildNeighborhoods_no_embedding f cfg segs hemb, ?_,
    mergeGroupsLoop_no_embedding cfg groups hgemb⟩
  unfold detect_boundaries
  rw [detectBoundariesGo_no_neighbors cfg hthr segs 0 0 hnbr]
  rw [List.range_eq_range']
  have hn : segs.length = (segs.length - 1) + 1 := by
    cases segs with
    | nil => exact absurd rfl hne
    | cons a l => simp
  rw [hn, List.range'_succ]
  norm_num

/-- Witness for the amended C2 at a concrete one-segment video and an empty
group list. -/
theorem grouping_no_embedding_amended_witness :
    (([seg0] : List SegmentNode) ≠ [] ∧
     (∀ s ∈ ([seg0] : List SegmentNode), s.embedding = none) ∧
     (∀ s ∈ ([seg0] : List SegmentNode), s.neighbors = []) ∧
     (0 : ℝ) < defaultGroupingConfig.adjacent_threshold) ∧
    (buildNeighborhoods (fun _ _ _ => []) defaultGroupingConfig [seg0]
        = [seg0] ∧
     detect_boundaries defaultGroupingConfig [seg0]
        = List.range ([seg0] : List SegmentNode).length ∧
     mergeGroupsLoop defaultGroupingConfig [] = []) := by
  have h1 : ∀ s ∈ ([seg0] : List SegmentNode), s.embedding = none := by
    intro s hs
    simp at hs
    rw [hs]
    rfl
  have h2 : ∀ s ∈ ([seg0] : List SegmentNode), s.neighbors = [] := by
    intro s hs
    simp at hs
    rw [hs]
    rfl
  have h3 : (0 : ℝ) < defaultGroupingConfig.adjacent_threshold := by
    norm_num [defaultGroupingConfig]
  exact ⟨⟨by simp, h1, h2, h3⟩,
    grouping_no_embedding_amended (fun _ _ _ => []) defaultGroupingConfig
      [seg0] [] (by simp) h1 h2 h3 (by simp)⟩

/-! ## C3: the `1.25 · max_group_words` bound after merging -/

/-- A concrete embedding-less segment with 1000 words. -/
noncomputable def segBig : SegmentNode :=
  { id := "sb", video_id := "v", index := 0, text := "big", start_time := 0,
    end_time := 1, word_count := 1000 }

/-- Stamping a group id does not change word counts. -/
theorem assignGid_map_word (gid : ℕ) (l : List SegmentNode) :
    (assignGid gid l).map SegmentNode.word_count
      = l.map SegmentNode.word_count := by
  rw [assignGid, List.map_map]
  rfl

/-- Merging two groups adds their word totals. -/
theorem mergeTwo_total (g1 g2 : SegmentGroup) :
    (mergeTwo g1 g2).total_words = g1.total_words + g2.total_words := by
  unfold mergeTwo SegmentGroup.total_words
  rw [List.map_append, assignGid_map_word, List.sum_append]

/-- Renumbering preserves each group's word total. -/
theorem renumber_total (X : List SegmentGroup) (g : SegmentGroup)
    (h : g ∈ renumber X) : ∃ g0 ∈ X, g.total_words = g0.total_words := by
  unfold renumber at h
  rw [List.mapIdx_eq_enum_map] at h
  rcases List.mem_map.mp h with ⟨p, hp, hpe⟩
  refine ⟨p.2, List.snd_mem_of_mem_enum hp, ?_⟩
  rw [← hpe]
  show (SegmentGroup.total_words
    { p.2 with group_id := p.1, segments := assignGid p.1 p.2.segments })
    = p.2.total_words
  unfold SegmentGroup.total_words
  rw [assignGid_map_word]

/-- Every group surviving the merge sweep is an input group or obeys the
`1.25 · max_group_words` bound. -/
theorem mergeGroupsLoop_total (cfg : GroupingConfig) :
    ∀ (groups : List SegmentGroup) (g : SegmentGroup),
      g ∈ mergeGroupsLoop cfg groups →
      g ∈ groups ∨
        ((g.total_words : ℝ) ≤ (cfg.max_group_words : ℝ) * 1.25)
  | [], g, h => absurd h (by simp [mergeGroupsLoop])
  | [g0], g, h => by
    rw [mergeGroupsLoop] at h
    simp at h
    subst h
    exact Or.inl (by simp)
  | a :: b :: rest, g, h => by
    rw [mergeGroupsLoop] at h
    by_cases hm : shouldMerge cfg a b
    · rw [if_pos hm] at h
      rcases List.mem_cons.mp h with rfl | htail
      · right
        rw [mergeTwo_total]
        exact_mod_cast hm.1
      · rcases mergeGroupsLoop_total cfg rest g htail with hmem | hb
        · exact Or.inl (by simp [hmem])
        · exact Or.inr hb
    · rw [if_neg hm] at h
      rcases List.mem_cons.mp h with rfl | htail
      · exact Or.inl (by simp)
      · rcases mergeGroupsLoop_total cfg (b :: rest) g htail with hmem | hb
        · left
          simp at hmem ⊢
          tauto
        · exact Or.inr hb

/-- **C3 (counterexample).** A single-segment video whose one segment has
1000 words yields, under the default configuration, a merged group list
whose group has `total_words = 1000 > 1.25 · 700`. -/
theorem merge_bound_counterexample :
    ((groupVideo (fun _ _ _ => []) defaultGroupingConfig [segBig]).map
        SegmentGroup.total_words) = [1000] ∧
    ¬ (((1000 : ℕ) : ℝ)
        ≤ (defaultGroupingConfig.max_group_words : ℝ) * 1.25) := by
  constructor
  · have hemb : ∀ s ∈ ([segBig] : List SegmentNode), s.embedding = none := by
      intro s hs
      simp at hs
      rw [hs]
      rfl
    unfold groupVideo
    rw [if_neg (by simp)]
    rw [buildNeighborhoods_no_embedding _ _ _ hemb]
    have hdb : detect_boundaries defaultGroupingConfig [segBig] = [0] := rfl
    unfold formGroups
    rw [hdb]
    have hch : chunksOf [segBig] [0] = [[segBig]] := rfl
    rw [hch]
    have hfg : formGroupsGo defaultGroupingConfig "v" [] [[segBig]]
        = [mkGroupOf 0 [segBig] "v"] := by
      rw [formGroupsGo, if_neg (by simp)]
      rfl
    have hhd : (match ([segBig] : List SegmentNode).head? with
        | some s => s.video_id | none => "") = "v" := rfl
    rw [hhd, hfg]
    unfold merge_groups
    rw [show mergeGroupsLoop defaultGroupingConfig [mkGroupOf 0 [segBig] "v"]
        = [mkGroupOf 0 [segBig] "v"] from rfl]
    simp [renumber, mkGroupOf, assignGid, SegmentGroup.total_words, segBig]
  · norm_num [defaultGroupingConfig]

/-- **C3 (amended).** The merge pass itself respects the bound: every group
in the merged list either carries the word total of some pre-merge group
unchanged (merging was refused or never attempted) or satisfies
`total_words ≤ 1.25 · max_group_words`; a group already exceeding the bound
before merging persists, as the counterexample shows. -/
theorem merge_groups_bound (cfg : GroupingConfig)
    (groups : List SegmentGroup) (g : SegmentGroup)
    (h : g ∈ merge_groups cfg groups) :
    (∃ g0 ∈ groups, g.total_words = g0.total_words) ∨
    ((g.total_words : ℝ) ≤ (cfg.max_group_words : ℝ) * 1.25) := by
  unfold merge_groups at h
  rcases renumber_total _ _ h with ⟨g1, hg1, htot⟩
  rcases mergeGroupsLoop_total cfg groups g1 hg1 with hmem | hb
  · exact Or.inl ⟨g1, hmem, htot⟩
  · right
    rw [htot]
    exact hb

/-- Witness for the amended C3: the merged output of a one-group list. -/
theorem merge_groups_bound_witness :
    ((mkGroupOf 0 [seg0] "v") ∈
        merge_groups defaultGroupingConfig [mkGroupOf 0 [seg0] "v"]) ∧
    ((∃ g0 ∈ [mkGroupOf 0 [seg0] "v"],
        (mkGroupOf 0 [seg0] "v").total_words = g0.total_words) ∨
     (((mkGroupOf 0 [seg0] "v").total_words : ℝ)
        ≤ (defaultGroupingConfig.max_group_words : ℝ) * 1.25)) := by
  have hm : merge_groups defaultGroupingConfig [mkGroupOf 0 [seg0] "v"]
      = [mkGroupOf 0 [seg0] "v"] := by
    unfold merge_groups
    rw [show mergeGroupsLoop defaultGroupingConfig [mkGroupOf 0 [seg0] "v"]
        = [mkGroupOf 0 [seg0] "v"] from rfl]
    simp [renumber, mkGroupOf, assignGid]
  have hmem : (mkGroupOf 0 [seg0] "v") ∈
      merge_groups defaultGroupingConfig [mkGroupOf 0 [seg0] "v"] := by
    rw [hm]
    simp
  exact ⟨hmem,
    merge_groups_bound defaultGroupingConfig [mkGroupOf 0 [seg0] "v"]
      (mkGroupOf 0 [seg0] "v") hmem⟩

/-! ## C7: partition, ordering and non-overlap of the produced groups -/

/-- A segment stripped of the pipeline's bookkeeping fields (`group_id`
assignment and neighborhood population); the identity, text, time and word
data are untouched by the pipeline. -/
def segPlain (s : SegmentNode) : SegmentNode :=
  { s with neighbors := [], group_id := none }

/-- The concatenation of the groups' member segment lists. -/
def groupsSegs (groups : List SegmentGroup) : List SegmentNode :=
  (groups.map SegmentGroup.segments).flatten

/-- Group-id stamping is invisible after `segPlain`. -/
theorem assignGid_map_plain (gid : ℕ) (l : List SegmentNode) :
    (assignGid gid l).map segPlain = l.map segPlain := by
  rw [assignGid, List.map_map]
  rfl

/-- Neighborhood population is invisible after `segPlain`. -/
theorem buildNeighborhoods_map_plain
    (f : List ℝ → String → ℕ → List Neighbor) (cfg : GroupingConfig)
    (segs : List SegmentNode) :
    (buildNeighborhoods f cfg segs).map segPlain = segs.map segPlain := by
  unfold buildNeighborhoods
  rw [List.map_map]
  apply List.map_congr_left
  intro s _
  show segPlain (match s.embTruthy with
    | none => s
    | some emb => neighborsFor f cfg segs s emb) = segPlain s
  cases s.embTruthy with
  | none => rfl
  | some emb => rfl

/-- `groupsSegs` over an appended group list. -/
theorem groupsSegs_append (X Y : List SegmentGroup) :
    groupsSegs (X ++ Y) = groupsSegs X ++ groupsSegs Y := by
  unfold groupsSegs
  rw [List.map_append, List.flatten_append]

/-- The chunk lists joined: with a `≤`-chained boundary list the chunks
reassemble the suffix of the segment list from the first boundary. -/
theorem chunksOf_join (segs : List SegmentNode) :
    ∀ (b : ℕ) (bs : List ℕ), List.Chain' (· ≤ ·) (b :: bs) →
      (chunksOf segs (b :: bs)).flatten = segs.drop b := by
  intro b bs
  induction bs generalizing b with
  | nil =>
    intro _
    simp [chunksOf]
  | cons b' rest ih =>
    intro hch
    have hbb : b ≤ b' := (List.chain'_cons.mp hch).1
    have htail := (List.chain'_cons.mp hch).2
    rw [chunksOf, List.flatten_cons, ih b' htail]
    unfold pySlice
    have hdd : segs.drop b' = (segs.drop b).drop (b' - b) := by
      rw [List.drop_drop]
      congr 1
      omega
    rw [hdd, List.take_append_drop]

/-- Chunks arising from in-range, strictly increasing boundaries are
non-empty. -/
theorem chunksOf_ne_nil (segs : List SegmentNode) :
    ∀ (b : ℕ) (bs : List ℕ), List.Chain' (· < ·) (b :: bs) →
      (∀ x ∈ b :: bs, x < segs.length) →
      ∀ c ∈ chunksOf segs (b :: bs), c ≠ [] := by
  intro b bs
  induction bs generalizing b with
  | nil =>
    intro _ hlt c hc
    have hb : b < segs.length := hlt b (by simp)
    simp only [chunksOf, List.mem_singleton] at hc
    subst hc
    intro hnil
    rw [List.drop_eq_nil_iff] at hnil
    omega
  | cons b' rest ih =>
    intro hch hlt c hc
    rw [chunksOf] at hc
    rcases List.mem_cons.mp hc with rfl | htail
    · have hb : b < segs.length := hlt b (by simp)
      have hbb : b < b' := (List.chain'_cons.mp hch).1
      intro hnil
      have hlen : (pySlice segs b b').length = 0 := by
        rw [hnil]
        rfl
      unfold pySlice at hlen
      rw [List.length_take, List.length_drop] at hlen
      omega
    · exact ih b' (List.chain'_cons.mp hch).2
        (fun x hx => hlt x (by simp at hx ⊢; tauto)) c htail

/-- The group-formation loop assembles, after `segPlain`, exactly the
accumulated groups' segments followed by the remaining chunks. -/
theorem formGroupsGo_join (cfg : GroupingConfig) (vid : String) :
    ∀ (chunks : List (List SegmentNode)) (acc : List SegmentGroup),
      (groupsSegs (formGroupsGo cfg vid acc chunks)).map segPlain
        = (groupsSegs acc).map segPlain ++ (chunks.flatten).map segPlain := by
  intro chunks
  induction chunks with
  | nil =>
    intro acc
    simp [formGroupsGo]
  | cons c rest ih =>
    intro acc
    rw [formGroupsGo]
    by_cases hcond : c.length < cfg.min_group_segments ∧ rest ≠ [] ∧
        (match acc.getLast? with
         | some g =>
            ((g.total_words + (c.map SegmentNode.word_count).sum : ℕ) : ℝ)
              ≤ (cfg.max_group_words : ℝ) * 1.2
         | none => False)
    · rw [if_pos hcond, ih]
      have hlast : acc.getLast? ≠ none := by
        intro hnone
        rcases hcond with ⟨_, _, h3⟩
        rw [hnone] at h3
        exact h3
      rcases Option.ne_none_iff_exists'.mp hlast with ⟨g, hg⟩
      have hacc : acc = acc.dropLast ++ [g] := by
        rcases acc with _ | ⟨a, l⟩
        · simp at hg
        · rw [List.getLast?_eq_getLast _ (by simp)] at hg
          rw [← List.dropLast_append_getLast (l := a :: l) (by simp)]
          simp at hg ⊢
          exact hg
      have hext : extendLast acc c = acc.dropLast ++
          [{ g with segments := g.segments ++ assignGid g.group_id c }] := by
        unfold extendLast
        rw [hg]
      rw [hext]
      conv_rhs => rw [hacc]
      rw [groupsSegs_append, groupsSegs_append]
      simp only [groupsSegs, List.map_singleton, List.flatten,
        List.map_append]
      rw [assignGid_map_plain]
      simp [List.append_assoc]
    · rw [if_neg hcond, ih, groupsSegs_append]
      simp [groupsSegs, mkGroupOf, assignGid_map_plain, List.append_assoc]

/-- The merge sweep preserves the flattened segment list. -/
theorem mergeGroupsLoop_join (cfg : GroupingConfig) :
    ∀ (groups : List SegmentGroup),
      (groupsSegs (mergeGroupsLoop cfg groups)).map segPlain
        = (groupsSegs groups).map segPlain
  | [] => rfl
  | [g] => rfl
  | g :: g' :: rest => by
    rw [mergeGroupsLoop]
    by_cases hm : shouldMerge cfg g g'
    · rw [if_pos hm]
      show ((mergeTwo g g').segments ++
          groupsSegs (mergeGroupsLoop cfg rest)).map segPlain = _
      rw [List.map_append, mergeGroupsLoop_join cfg rest]
      unfold mergeTwo
      show ((g.segments ++ assignGid g.group_id g'.segments).map segPlain)
          ++ _ = _
      rw [List.map_append, assignGid_map_plain]
      show _ = (g.segments ++ (g'.segments ++ groupsSegs rest)).map segPlain
      simp [List.map_append, List.append_assoc]
    · rw [if_neg hm]
      show (g.segments ++ groupsSegs (mergeGroupsLoop cfg (g' :: rest))).map
          segPlain = _
      rw [List.map_append, mergeGroupsLoop_join cfg (g' :: rest)]
      show _ = (g.segments ++ groupsSegs (g' :: rest)).map segPlain
      rw [List.map_append]

/-- Renumbering preserves the flattened segment list. -/
theorem renumber_join (X : List SegmentGroup) :
    (groupsSegs (renumber X)).map segPlain = (groupsSegs X).map segPlain := by
  unfold renumber groupsSegs
  rw [List.mapIdx_eq_enum_map, List.map_map, List.map_flatten,
    List.map_flatten, List.map_map, List.map_map]
  congr 1
  have h2 : List.map (List.map segPlain ∘ SegmentGroup.segments ∘
      Function.uncurry fun idx g =>
        { g with group_id := idx, segments := assignGid idx g.segments })
      X.enum
      = List.map ((List.map segPlain ∘ SegmentGroup.segments) ∘ Prod.snd)
          X.enum :=
    List.map_congr_left (fun p _ => assignGid_map_plain p.1 p.2.segments)
  rw [h2, ← List.map_map, List.enum_map_snd]

/-- The boundary list is strictly increasing. -/
theorem boundaries_chain (cfg : GroupingConfig) (segs : List SegmentNode) :
    List.Chain' (· < ·) (detect_boundaries cfg segs) := by
  rw [detect_boundaries_spec]
  unfold boundariesSpec
  apply List.Pairwise.chain'
  rw [List.pairwise_cons]
  constructor
  · intro b hb
    rcases List.mem_filterMap.mp hb with ⟨i, _, hfi⟩
    split at hfi
    · simp at hfi
      omega
    · simp at hfi
  · rw [List.pairwise_filterMap]
    apply (List.pairwise_lt_range _).imp
    intro i i' hii b hb b' hb'
    split at hb <;> simp at hb
    split at hb' <;> simp at hb'
    omega

/-- Every boundary index is in range for a non-empty segment list. -/
theorem boundaries_lt (cfg : GroupingConfig) (segs : List SegmentNode)
    (hne : segs ≠ []) : ∀ b ∈ detect_boundaries cfg segs, b < segs.length := by
  intro b hb
  rw [detect_boundaries_spec] at hb
  unfold boundariesSpec at hb
  rcases List.mem_cons.mp hb with rfl | htail
  · exact List.length_pos.mpr hne
  · rcases List.mem_filterMap.mp htail with ⟨i, hi, hfi⟩
    rw [List.mem_range] at hi
    split at hfi
    · simp at hfi
      omega
    · simp at hfi

/-- Groups produced by the formation loop have non-empty segment lists when
the chunks and the accumulator do. -/
theorem formGroupsGo_ne_nil (cfg : GroupingConfig) (vid : String) :
    ∀ (chunks : List (List SegmentNode)) (acc : List SegmentGroup),
      (∀ c ∈ chunks, c ≠ []) → (∀ g ∈ acc, g.segments ≠ []) →
      ∀ g ∈ formGroupsGo cfg vid acc chunks, g.segments ≠ [] := by
  intro chunks
  induction chunks with
  | nil =>
    intro acc _ hacc g hg
    rw [formGroupsGo] at hg
    exact hacc g hg
  | cons c rest ih =>
    intro acc hch hacc g hg
    rw [formGroupsGo] at hg
    split at hg
    · refine ih _ (fun x hx => hch x (by simp [hx])) ?_ g hg
      intro x hx
      unfold extendLast at hx
      cases hlast : acc.getLast? with
      | none =>
        rw [hlast] at hx
        exact hacc x hx
      | some g0 =>
        rw [hlast] at hx
        rcases List.mem_append.mp hx with h1 | h2
        · exact hacc x (List.dropLast_subset acc h1)
        · rw [List.mem_singleton] at h2
          subst h2
          simp only []
          intro hnil
          rcases List.append_eq_nil.mp hnil with ⟨h3, _⟩
          exact hacc g0 (List.mem_of_mem_getLast? hlast) h3
    · refine ih _ (fun x hx => hch x (by simp [hx])) ?_ g hg
      intro x hx
      rcases List.mem_append.mp hx with h1 | h2
      · exact hacc x h1
      · rw [List.mem_singleton] at h2
        subst h2
        show assignGid acc.length c ≠ []
        have hc : c ≠ [] := hch c (by simp)
        simp [assignGid, hc]

/-- The merge sweep preserves group non-emptiness. -/
theorem mergeGroupsLoop_ne_nil (cfg : GroupingConfig) :
    ∀ (groups : List SegmentGroup), (∀ g ∈ groups, g.segments ≠ []) →
      ∀ g ∈ mergeGroupsLoop cfg groups, g.segments ≠ []
  | [], _, g, hg => absurd hg (by simp [mergeGroupsLoop])
  | [g0], h, g, hg => by
    rw [mergeGroupsLoop] at hg
    simp at hg
    subst hg
    exact h g (by simp)
  | a :: b :: rest, h, g, hg => by
    rw [mergeGroupsLoop] at hg
    split at hg
    · rcases List.mem_cons.mp hg with rfl | htail
      · show (a.segments ++ assignGid a.group_id b.segments) ≠ []
        intro hnil
        exact h a (by simp) (List.append_eq_nil.mp hnil).1
      · exact mergeGroupsLoop_ne_nil cfg rest
          (fun x hx => h x (by simp [hx])) g htail
    · rcases List.mem_cons.mp hg with rfl | htail
      · exact h g (by simp)
      · exact mergeGroupsLoop_ne_nil cfg (b :: rest)
          (fun x hx => h x (by simp at hx ⊢; tauto)) g htail

/-- Renumbering preserves group non-emptiness. -/
theorem renumber_ne_nil (X : List SegmentGroup)
    (h : ∀ g ∈ X, g.segments ≠ []) :
    ∀ g ∈ renumber X, g.segments ≠ [] := by
  intro g hg
  unfold renumber at hg
  rw [List.mapIdx_eq_enum_map] at hg
  rcases List.mem_map.mp hg with ⟨p, hp, hpe⟩
  have hmem := List.snd_mem_of_mem_enum hp
  rw [← hpe]
  show assignGid p.1 p.2.segments ≠ []
  have := h p.2 hmem
  simp [assignGid, this]

/-- Renumbering assigns `group_id` densely from 0. -/
theorem renumber_ids (X : List SegmentGroup) :
    (renumber X).map SegmentGroup.group_id = List.range X.length := by
  unfold renumber
  rw [List.mapIdx_eq_enum_map, List.map_map]
  have h2 : List.map (SegmentGroup.group_id ∘
      Function.uncurry fun idx g =>
        { g with group_id := idx, segments := assignGid idx g.segments })
      X.enum = List.map Prod.fst X.enum :=
    List.map_congr_left (fun p _ => rfl)
  rw [h2, List.enum_map_fst]

/-- Renumbering preserves the number of groups. -/
theorem renumber_length (X : List SegmentGroup) :
    (renumber X).length = X.length := by
  simp [renumber]

/-- Temporal disjointness of consecutive segments. -/
def segBefore (a b : SegmentNode) : Prop := a.end_time ≤ b.start_time

/-- Under disjointness and well-formed spans, the head of a chained list has
the least start time. -/
theorem chain_start_head_le :
    ∀ (rest : List SegmentNode) (a : SegmentNode),
      List.Chain' segBefore (a :: rest) →
      (∀ s ∈ a :: rest, s.start_time ≤ s.end_time) →
      ∀ x ∈ rest, a.start_time ≤ x.start_time := by
  intro rest
  induction rest with
  | nil => intro a _ _ x hx; simp at hx
  | cons b t ih =>
    intro a hch hse x hx
    have hab : a.start_time ≤ b.start_time :=
      le_trans (hse a (by simp)) (List.chain'_cons.mp hch).1
    rcases List.mem_cons.mp hx with rfl | ht
    · exact hab
    · exact le_trans hab
        (ih b (List.chain'_cons.mp hch).2
          (fun s hs => hse s (by simp at hs ⊢; tauto)) x ht)

/-- A left fold of `min` over values all at least the seed is the seed. -/
theorem foldl_min_start :
    ∀ (rest : List SegmentNode) (m : ℝ), (∀ x ∈ rest, m ≤ x.start_time) →
      rest.foldl (fun acc x => min acc x.start_time) m = m := by
  intro rest
  induction rest with
  | nil => intro m _; rfl
  | cons x t ih =>
    intro m hm
    show t.foldl _ (min m x.start_time) = m
    rw [min_eq_left (hm x (by simp))]
    exact ih m (fun y hy => hm y (by simp [hy]))

/-- Under disjointness and well-formed spans, end times are chained. -/
theorem chain_end_le :
    ∀ (l : List SegmentNode), List.Chain' segBefore l →
      (∀ s ∈ l, s.start_time ≤ s.end_time) →
      List.Chain' (fun x y => x.end_time ≤ y.end_time) l := by
  intro l
  induction l with
  | nil => intro _ _; exact List.chain'_nil
  | cons a t ih =>
    intro hch hse
    cases t with
    | nil => simp
    | cons b u =>
      rw [List.chain'_cons]
      exact ⟨le_trans (List.chain'_cons.mp hch).1 (hse b (by simp)),
        ih (List.chain'_cons.mp hch).2
          (fun s hs => hse s (by simp at hs ⊢; tauto))⟩

/-- A left fold of `max` over a list with chained end times reaches the last
element's end time. -/
theorem foldl_max_end :
    ∀ (rest : List SegmentNode) (a : SegmentNode),
      List.Chain' (fun x y => x.end_time ≤ y.end_time) (a :: rest) →
      some (rest.foldl (fun acc x => max acc x.end_time) a.end_time)
        = ((a :: rest).getLast?).map SegmentNode.end_time := by
  intro rest
  induction rest with
  | nil => intro a _; rfl
  | cons x t ih =>
    intro a hch
    show some (t.foldl _ (max a.end_time x.end_time)) = _
    rw [max_eq_right (List.chain'_cons.mp hch).1]
    rw [List.getLast?_cons_cons]
    exact ih x (List.chain'_cons.mp hch).2

/-- For a non-empty, chained, well-formed group, `start_time` is the first
member's start and `end_time` the last member's end. -/
theorem group_interval (g : SegmentGroup)
    (hch : List.Chain' segBefore g.segments)
    (hse : ∀ s ∈ g.segments, s.start_time ≤ s.end_time) :
    (∀ y ∈ g.segments.head?, g.start_time = y.start_time) ∧
    (∀ x ∈ g.segments.getLast?, g.end_time = x.end_time) := by
  cases hseg : g.segments with
  | nil => simp
  | cons a rest =>
    rw [hseg] at hch hse
    constructor
    · intro y hy
      simp at hy
      subst hy
      unfold SegmentGroup.start_time
      rw [hseg]
      exact foldl_min_start rest a.start_time
        (chain_start_head_le rest a hch hse)
    · intro x hx
      have h1 := foldl_max_end rest a (chain_end_le _ hch hse)
      unfold SegmentGroup.end_time
      rw [hseg]
      rw [hx] at h1
      simpa using h1

/-- A membership-aware strengthening of `Chain'.imp`. -/
theorem chain'_imp_mem {α : Type} {P Q : α → α → Prop} :
    ∀ (l : List α), List.Chain' P l →
      (∀ a ∈ l, ∀ b ∈ l, P a b → Q a b) → List.Chain' Q l := by
  intro l
  induction l with
  | nil => intro _ _; exact List.chain'_nil
  | cons a t ih =>
    intro hch himp
    cases t with
    | nil => simp
    | cons b u =>
      rw [List.chain'_cons]
      exact ⟨himp a (by simp) b (by simp) (List.chain'_cons.mp hch).1,
        ih (List.chain'_cons.mp hch).2
          (fun x hx y hy hp => himp x (by simp at hx ⊢; tauto)
            y (by simp at hy ⊢; tauto) hp)⟩

/-- **C7 (amended).** For a non-empty fetched segment list whose consecutive
segments are temporally disjoint (`end_time ≤` the next `start_time`) and
well-formed (`start_time ≤ end_time`): after group formation and the merge
pass, the groups' concatenated member lists are exactly the input segments
(every fetched segment appears in exactly one group, in order, up to the
`group_id` stamp and neighborhood population the pipeline writes on them),
`group_id` is assigned densely from 0 in temporal order, every group is
non-empty, and the groups' temporal intervals are non-overlapping in
`group_id` order.  (Without the disjointness hypothesis the intervals can
overlap — see the counterexample.) -/
theorem grouping_partition_amended (f : List ℝ → String → ℕ → List Neighbor)
    (cfg : GroupingConfig) (segs : List SegmentNode)
    (hne : segs ≠ [])
    (hchain : List.Chain' segBefore segs)
    (hse : ∀ s ∈ segs, s.start_time ≤ s.end_time) :
    (groupsSegs (groupVideo f cfg segs)).map segPlain = segs.map segPlain ∧
    (groupVideo f cfg segs).map SegmentGroup.group_id
      = List.range (groupVideo f cfg segs).length ∧
    (∀ g ∈ groupVideo f cfg segs, g.segments ≠ []) ∧
    List.Chain' (fun g1 g2 => g1.end_time ≤ g2.start_time)
      (groupVideo f cfg segs) := by
  have hout : groupVideo f cfg segs
      = renumber (mergeGroupsLoop cfg
          (formGroups cfg (buildNeighborhoods f cfg segs))) := by
    unfold groupVideo merge_groups
    rw [if_neg (by rw [List.isEmpty_iff]; exact hne)]
  have hlenB : (buildNeighborhoods f cfg segs).length = segs.length := by
    simp [buildNeighborhoods]
  have hneB : buildNeighborhoods f cfg segs ≠ [] := by
    intro h0
    apply hne
    have hl := congrArg List.length h0
    rw [hlenB] at hl
    simpa using List.length_eq_zero.mp (by simpa using hl)
  have hbch := boundaries_chain cfg (buildNeighborhoods f cfg segs)
  have hblt := boundaries_lt cfg (buildNeighborhoods f cfg segs) hneB
  have hbform : detect_boundaries cfg (buildNeighborhoods f cfg segs)
      = 0 :: detectBoundariesGo cfg 0 0 (buildNeighborhoods f cfg segs) := rfl
  have hflat : (chunksOf (buildNeighborhoods f cfg segs)
      (detect_boundaries cfg (buildNeighborhoods f cfg segs))).flatten
      = buildNeighborhoods f cfg segs := by
    rw [hbform, chunksOf_join _ 0 _ ((hbform ▸ hbch).imp
      (fun a b h => le_of_lt h))]
    rfl
  have hpart : (groupsSegs (groupVideo f cfg segs)).map segPlain
      = segs.map segPlain := by
    rw [hout, renumber_join, mergeGroupsLoop_join]
    unfold formGroups
    rw [formGroupsGo_join, hflat]
    rw [show (groupsSegs []).map segPlain = [] from rfl, List.nil_append]
    exact buildNeighborhoods_map_plain f cfg segs
  have hids : (groupVideo f cfg segs).map SegmentGroup.group_id
      = List.range (groupVideo f cfg segs).length := by
    rw [hout, renumber_ids, renumber_length]
  have hchne : ∀ c ∈ chunksOf (buildNeighborhoods f cfg segs)
      (detect_boundaries cfg (buildNeighborhoods f cfg segs)), c ≠ [] := by
    rw [hbform]
    exact chunksOf_ne_nil _ 0 _ (hbform ▸ hbch)
      (fun x hx => hblt x (hbform ▸ hx))
  have hgne : ∀ g ∈ groupVideo f cfg segs, g.segments ≠ [] := by
    rw [hout]
    intro g hg
    refine renumber_ne_nil _ ?_ g hg
    intro g1 hg1
    refine mergeGroupsLoop_ne_nil cfg _ ?_ g1 hg1
    intro g2 hg2
    unfold formGroups at hg2
    exact formGroupsGo_ne_nil cfg _ _ [] hchne (by simp) g2 hg2
  refine ⟨hpart, hids, hgne, ?_⟩
  have hchainF : List.Chain' segBefore (groupsSegs (groupVideo f cfg segs))
      := by
    have h1 : List.Chain' segBefore (segs.map segPlain) := by
      rw [List.chain'_map]
      exact hchain
    rw [← hpart, List.chain'_map] at h1
    exact h1
  have hseF : ∀ s ∈ groupsSegs (groupVideo f cfg segs),
      s.start_time ≤ s.end_time := by
    intro s hs
    have hmem : segPlain s ∈ segs.map segPlain := by
      rw [← hpart]
      exact List.mem_map_of_mem _ hs
    rcases List.mem_map.mp hmem with ⟨s0, hs0, he⟩
    have h1 := congrArg SegmentNode.start_time he
    have h2 := congrArg SegmentNode.end_time he
    simp only [segPlain] at h1 h2
    rw [← h1, ← h2]
    exact hse s0 hs0
  have hLne : [] ∉ (groupVideo f cfg segs).map SegmentGroup.segments := by
    intro h0
    rcases List.mem_map.mp h0 with ⟨g, hg, he⟩
    exact hgne g hg he
  have hfl : List.Chain' segBefore
      ((groupVideo f cfg segs).map SegmentGroup.segments).flatten := hchainF
  obtain ⟨hin, hbtw⟩ := (List.chain'_flatten hLne).mp hfl
  have hb2 : List.Chain' (fun g1 g2 =>
      ∀ x ∈ g1.segments.getLast?, ∀ y ∈ g2.segments.head?, segBefore x y)
      (groupVideo f cfg segs) := (List.chain'_map _).mp hbtw
  apply chain'_imp_mem _ hb2
  intro g1 hg1 g2 hg2 hp
  have hse1 : ∀ s ∈ g1.segments, s.start_time ≤ s.end_time := by
    intro s hs
    exact hseF s (List.mem_flatten.mpr
      ⟨g1.segments, List.mem_map_of_mem _ hg1, hs⟩)
  have hse2 : ∀ s ∈ g2.segments, s.start_time ≤ s.end_time := by
    intro s hs
    exact hseF s (List.mem_flatten.mpr
      ⟨g2.segments, List.mem_map_of_mem _ hg2, hs⟩)
  have hch1 : List.Chain' segBefore g1.segments :=
    hin _ (List.mem_map_of_mem _ hg1)
  have hch2 : List.Chain' segBefore g2.segments :=
    hin _ (List.mem_map_of_mem _ hg2)
  have hx : g1.segments.getLast? = some (g1.segments.getLast (hgne g1 hg1)) :=
    List.getLast?_eq_getLast _ _
  have hy : g2.segments.head? = some (g2.segments.head (hgne g2 hg2)) :=
    List.head?_eq_head _
  have he1 := (group_interval g1 hch1 hse1).2 _ hx
  have hs2 := (group_interval g2 hch2 hse2).1 _ hy
  rw [he1, hs2]
  exact hp _ hx _ hy

/-- An embedding-less segment spanning `[0, 100]`. -/
noncomputable def segO0 : SegmentNode :=
  { id := "o0", video_id := "v", index := 0, text := "x", start_time := 0,
    end_time := 100, word_count := 1 }

/-- An embedding-less segment spanning `[10, 20]`, overlapping `segO0` but
starting later. -/
noncomputable def segO1 : SegmentNode :=
  { id := "o1", video_id := "v", index := 1, text := "y", start_time := 10,
    end_time := 20, word_count := 1 }

/-- The pipeline on two embedding-less one-word segments with empty
neighborhoods: one group per segment, renumbered. -/
theorem groupVideo_two_noemb (a b : SegmentNode)
    (ha : a.embedding = none) (hb : b.embedding = none)
    (hna : a.neighbors = []) (hnb : b.neighbors = []) :
    groupVideo (fun _ _ _ => []) defaultGroupingConfig [a, b]
      = renumber [mkGroupOf 0 [a] a.video_id, mkGroupOf 1 [b] a.video_id]
      := by
  have hemb : ∀ s ∈ ([a, b] : List SegmentNode), s.embedding = none := by
    intro s hs
    simp at hs
    rcases hs with rfl | rfl
    · exact ha
    · exact hb
  unfold groupVideo
  rw [if_neg (by simp)]
  rw [buildNeighborhoods_no_embedding _ _ _ hemb]
  have hdb : detect_boundaries defaultGroupingConfig [a, b] = [0, 1] := by
    unfold detect_boundaries
    rw [detectBoundariesGo_no_neighbors _ (by norm_num [defaultGroupingConfig])
      _ 0 0 (by
        intro s hs
        simp at hs
        rcases hs with rfl | rfl
        · exact hna
        · exact hnb)]
    rfl
  unfold formGroups
  rw [hdb]
  have hch : chunksOf [a, b] [0, 1] = [[a], [b]] := rfl
  rw [hch]
  have hfg : formGroupsGo defaultGroupingConfig a.video_id [] [[a], [b]]
      = [mkGroupOf 0 [a] a.video_id, mkGroupOf 1 [b] a.video_id] := by
    rw [formGroupsGo, if_neg (by simp)]
    rw [formGroupsGo, if_neg (by simp)]
    rfl
  have hhd : (match ([a, b] : List SegmentNode).head? with
      | some s => s.video_id | none => "") = a.video_id := rfl
  rw [hhd, hfg]
  unfold merge_groups
  rw [mergeGroupsLoop_no_embedding defaultGroupingConfig _ (by
    intro g hg s hs
    simp at hg
    rcases hg with rfl | rfl
    · simp [mkGroupOf, assignGid] at hs
      subst hs
      exact ha
    · simp [mkGroupOf, assignGid] at hs
      subst hs
      exact hb)]

/-- **C7 (counterexample).** On a fetched list sorted by `start_time` whose
segments temporally overlap, the produced groups' temporal intervals
overlap: the first group spans `[0, 100]`, the second `[10, 20]`. -/
theorem grouping_overlap_counterexample :
    List.Chain' (fun x y => x.start_time ≤ y.start_time)
      ([segO0, segO1] : List SegmentNode) ∧
    ¬ List.Chain' (fun g1 g2 => g1.end_time ≤ g2.start_time)
        (groupVideo (fun _ _ _ => []) defaultGroupingConfig [segO0, segO1])
      := by
  constructor
  · rw [List.chain'_cons]
    exact ⟨by norm_num [segO0, segO1], by simp⟩
  · rw [groupVideo_two_noemb segO0 segO1 rfl rfl rfl rfl]
    have hr : renumber [mkGroupOf 0 [segO0] segO0.video_id,
        mkGroupOf 1 [segO1] segO0.video_id]
        = [{ group_id := 0,
             segments := assignGid 0 (assignGid 0 [segO0]),
             video_id := segO0.video_id },
           { group_id := 1,
             segments := assignGid 1 (assignGid 1 [segO1]),
             video_id := segO0.video_id }] := by
      unfold renumber
      rw [List.mapIdx_eq_enum_map]
      rfl
    rw [hr]
    intro hcontra
    rw [List.chain'_cons] at hcontra
    have h1 := hcontra.1
    have he : SegmentGroup.end_time
        { group_id := 0, segments := assignGid 0 (assignGid 0 [segO0]),
          video_id := segO0.video_id } = 100 := by
      simp [SegmentGroup.end_time, assignGid, segO0]
    have hs : SegmentGroup.start_time
        { group_id := 1, segments := assignGid 1 (assignGid 1 [segO1]),
          video_id := segO0.video_id } = 10 := by
      simp [SegmentGroup.start_time, assignGid, segO1]
    rw [he, hs] at h1
    norm_num at h1

/-- Witness for the amended C7 at two disjoint concrete segments. -/
theorem grouping_partition_amended_witness :
    (([seg0, seg1] : List SegmentNode) ≠ [] ∧
     List.Chain' segBefore [seg0, seg1] ∧
     (∀ s ∈ ([seg0, seg1] : List SegmentNode),
        s.start_time ≤ s.end_time)) ∧
    ((groupsSegs (groupVideo (fun _ _ _ => []) defaultGroupingConfig
          [seg0, seg1])).map segPlain = [seg0, seg1].map segPlain ∧
     (groupVideo (fun _ _ _ => []) defaultGroupingConfig
          [seg0, seg1]).map SegmentGroup.group_id
        = List.range (groupVideo (fun _ _ _ => []) defaultGroupingConfig
            [seg0, seg1]).length ∧
     (∀ g ∈ groupVideo (fun _ _ _ => []) defaultGroupingConfig
          [seg0, seg1], g.segments ≠ []) ∧
     List.Chain' (fun g1 g2 => g1.end_time ≤ g2.start_time)
       (groupVideo (fun _ _ _ => []) defaultGroupingConfig [seg0, seg1]))
      := by
  have h1 : ([seg0, seg1] : List SegmentNode) ≠ [] := by simp
  have h2 : List.Chain' segBefore [seg0, seg1] := by
    rw [List.chain'_cons]
    exact ⟨by norm_num [segBefore, seg0, seg1], by simp⟩
  have h3 : ∀ s ∈ ([seg0, seg1] : List SegmentNode),
      s.start_time ≤ s.end_time := by
    intro s hs
    simp at hs
    rcases hs with rfl | rfl <;> norm_num [seg0, seg1]
  exact ⟨⟨h1, h2, h3⟩,
    grouping_partition_amended (fun _ _ _ => []) defaultGroupingConfig
      [seg0, seg1] h1 h2 h3⟩

/-! ## Text normalization and the regex fragment used by the detectors

`src/services/relationships/intra_group_detector.py` and
`inter_group_detector.py` match a small, fixed family of regular
expressions against normalized (lowercased, whitespace-collapsed,
stripped) text.  The fragment is embedded as a token list with a
backtracking matcher that follows Python's preference order (alternation
left to right, quantifiers greedy).  All concept names appearing in the
development are alphanumeric words separated by single spaces, so
`re.escape` leaves them literal and `\b` next to them demands a non-word
character (or the text edge) on the outside. -/

/-- `re.sub(r"\s+", " ", ·)`: collapse each whitespace run to one space.
The flag records whether the previous character was whitespace. -/
def collapseWsGo : Bool → List Char → List Char
  | _, [] => []
  | inRun, c :: rest =>
    if pyIsSpace c then
      if inRun then collapseWsGo true rest else ' ' :: collapseWsGo true rest
    else c :: collapseWsGo false rest

/-- `normalize_for_pattern` (intra detector) and `normalize_text` (inter
detector), which are identical: lowercase, collapse whitespace, strip. -/
def normalize_for_pattern (text : String) : String :=
  pyStrip ⟨collapseWsGo false (text.data.map Char.toLower)⟩

/-- Python slice `s[a:b]` by code points (all callers pass `a, b ≥ 0`;
Python clamps `b` to the length, as `take` does). -/
def sliceStr (s : String) (a b : ℕ) : String := ⟨(s.data.drop a).take (b - a)⟩

/-- Consume the literal `w` from the front of `s`, returning the rest. -/
def consumeLit : List Char → List Char → Option (List Char)
  | [], s => some s
  | _ :: _, [] => none
  | c :: cs, x :: xs => if c = x then consumeLit cs xs else none

/-- The first `some` produced along a list: Python's preference order for
regex alternations and quantifier backtracking. -/
def firstSome {α β : Type} : List α → (α → Option β) → Option β
  | [], _ => none
  | a :: rest, f =>
    match f a with
    | some b => some b
    | none => firstSome rest f

/-- The character preceding the current position after `consumed` was
consumed (falling back to the previous such character). -/
def lastOf (consumed : List Char) (prev : Option Char) : Option Char :=
  match consumed.getLast? with
  | some c => some c
  | none => prev

/-- `\b` to the left of a word character: start of text or a non-word
character before the position. -/
def boundaryBefore (prev : Option Char) : Bool :=
  match prev with
  | none => true
  | some c => !pyIsWord c

/-- `\b` to the right of a word character: end of text or a non-word
character at the position. -/
def boundaryAfterOk (s : List Char) : Bool :=
  match s with
  | [] => true
  | c :: _ => !pyIsWord c

/-- `[n, n-1, …, 1]`: candidate lengths of a greedy `+` quantifier. -/
def descRuns (n : ℕ) : List ℕ := (List.range n).reverse.map (· + 1)

/-- `[n, n-1, …, 0]`: candidate lengths of a greedy `*` quantifier. -/
def descRuns0 (n : ℕ) : List ℕ := (List.range (n + 1)).reverse

/-- The suffix alternatives of `(?:'?s)?` (from `create_concept_regex`) in
Python preference order: `'s`, `s`, empty. -/
def conceptSuffixes : List (List Char) := [[apostChar, 's'], ['s'], []]

/-- Tokens of the regex fragment generated by `RELATIONSHIP_PATTERNS`
after `create_concept_regex` substitution: literal strings, literal
alternations `(?:w|…)`, `\s+`, `\s*[c…]\s*`, concept references
`\b name (?:'?s)? \b` (source or target) and `.+`. -/
inductive RTok where
  | litStr (w : List Char)
  | lits (alts : List (List Char))
  | ws
  | wsAround (alts : List (List Char))
  | concept (src : Bool)
  | anyPlus
deriving Repr

/-- Backtracking matcher for a token list at the current position,
threading the preceding character for `\b`; returns the unmatched suffix
of the first successful match in Python preference order. -/
def matchToks (sname tname : List Char) :
    List RTok → Option Char → List Char → Option (List Char)
  | [], _, s => some s
  | RTok.litStr w :: ts, prev, s =>
    match consumeLit w s with
    | some rest => matchToks sname tname ts (lastOf w prev) rest
    | none => none
  | RTok.lits alts :: ts, prev, s =>
    firstSome alts fun w =>
      match consumeLit w s with
      | some rest => matchToks sname tname ts (lastOf w prev) rest
      | none => none
  | RTok.ws :: ts, prev, s =>
    firstSome (descRuns (s.takeWhile pyIsSpace).length) fun k =>
      matchToks sname tname ts (lastOf (s.take k) prev) (s.drop k)
  | RTok.wsAround alts :: ts, prev, s =>
    firstSome (descRuns0 (s.takeWhile pyIsSpace).length) fun k1 =>
      firstSome alts fun w =>
        match consumeLit w (s.drop k1) with
        | some s2 =>
          firstSome (descRuns0 (s2.takeWhile pyIsSpace).length) fun k2 =>
            matchToks sname tname ts
              (lastOf (s2.take k2) (lastOf w (lastOf (s.take k1) prev)))
              (s2.drop k2)
        | none => none
  | RTok.concept src :: ts, prev, s =>
    if boundaryBefore prev then
      match consumeLit (if src then sname else tname) s with
      | some rest =>
        firstSome conceptSuffixes fun sfx =>
          match consumeLit sfx rest with
          | some rest2 =>
            if boundaryAfterOk rest2 then
              matchToks sname tname ts
                (lastOf sfx (lastOf (if src then sname else tname) prev)) rest2
            else none
          | none => none
      | none => none
    else none
  | RTok.anyPlus :: ts, prev, s =>
    firstSome (descRuns (s.takeWhile (fun c => c != '\n')).length) fun k =>
      matchToks sname tname ts (lastOf (s.take k) prev) (s.drop k)

/-- `re.search` for a token pattern: leftmost match, returning the start
and end positions. -/
def searchToksFrom (sname tname : List Char) (toks : List RTok) :
    Option Char → List Char → ℕ → Option (ℕ × ℕ)
  | prev, [], pos =>
    match matchToks sname tname toks prev [] with
    | some _ => some (pos, pos)
    | none => none
  | prev, c :: rest, pos =>
    match matchToks sname tname toks prev (c :: rest) with
    | some r => some (pos, pos + ((c :: rest).length - r.length))
    | none => searchToksFrom sname tname toks (some c) rest (pos + 1)

/-- `re.search(pattern, s)` with `(start, end)` result. -/
def reSearch (sname tname : List Char) (toks : List RTok) (s : String) :
    Option (ℕ × ℕ) :=
  searchToksFrom sname tname toks none s.data 0

/-! ## `src/domain/relationship.py`: `RelationshipType`, `DetectionMethod`,
`Relationship`

`src/domain/relationship.py` is present in `src/`.  As for concepts,
scores are rationals and uuid5 ids are modelled as their deterministic key
strings; the `extracted_at` timestamp is omitted. -/

/-- `RelationshipType`, constructors in enum declaration (= iteration)
order.  `extends_` stands for the member named `EXTENDS` (with value
`"extends"`), which is a reserved word in Lean. -/
inductive RelationshipType where
  | defines | causes | requires | contradicts | exemplifies | implements
  | uses
  | builds_on | elaborates | references | refines
  | complements | contradicts_across | extends_ | similar_to
deriving DecidableEq, Repr

/-- The `.value` strings of `RelationshipType`. -/
def RelationshipType.value : RelationshipType → String
  | .defines => "defines"
  | .causes => "causes"
  | .requires => "requires"
  | .contradicts => "contradicts"
  | .exemplifies => "exemplifies"
  | .implements => "implements"
  | .uses => "uses"
  | .builds_on => "builds_on"
  | .elaborates => "elaborates"
  | .references => "references"
  | .refines => "refines"
  | .complements => "complements"
  | .contradicts_across => "contradicts_across"
  | .extends_ => "extends"
  | .similar_to => "similar_to"

/-- The declaration order of the enum, as iterated by
`for rel_type in RelationshipType`. -/
def relationshipTypeOrder : List RelationshipType :=
  [.defines, .causes, .requires, .contradicts, .exemplifies, .implements,
   .uses, .builds_on, .elaborates, .references, .refines,
   .complements, .contradicts_across, .extends_, .similar_to]

/-- `RelationshipType.is_intra_group`. -/
def RelationshipType.is_intra_group : RelationshipType → Bool
  | .defines | .causes | .requires | .contradicts | .exemplifies
  | .implements | .uses => true
  | _ => false

/-- `DetectionMethod`. -/
inductive DetectionMethod where
  | pattern_matching | cue_phrase | vector_similarity
  | temporal_proximity | llm_extraction | cross_reference
deriving DecidableEq, Repr

/-- `Relationship` (validated form, after `__post_init__`). -/
structure Relationship where
  source_concept_id : String
  target_concept_id : String
  type : RelationshipType
  confidence : ℚ
  evidence : String
  detection_method : DetectionMethod
  source_video_id : String
  source_group_id : ℕ
  target_video_id : String
  target_group_id : ℕ
  temporal_distance : Option ℚ := none
  id : String
deriving DecidableEq, Repr

/-- The deterministic uuid5 key
`f"{source_concept_id}:{target_concept_id}:{type.value}"` from
`Relationship._generate_uuid` (uuid5 modelled as the identity on keys). -/
def relationshipUuidKey (src tgt : String) (ty : RelationshipType) : String :=
  src ++ ":" ++ tgt ++ ":" ++ ty.value

/-- `Relationship.__post_init__` as a constructor (the detectors always
pass `id=None`): clamp the confidence, strip and bound-check the evidence,
reject a negative `temporal_distance`, and fill in the deterministic id.
Raised `ValueError`s are modelled as `Except.error`. -/
def mkRelationship (source_concept_id target_concept_id : String)
    (type : RelationshipType) (confidence : ℚ) (evidence : String)
    (detection_method : DetectionMethod) (source_video_id : String)
    (source_group_id : ℕ) (target_video_id : String) (target_group_id : ℕ)
    (temporal_distance : Option ℚ) : Except String Relationship :=
  let confidence := max 0 (min 1 confidence)
  let evidence := pyStrip evidence
  if evidence.length < 10 then
    Except.error ("Evidence too short: " ++ evidence)
  else
    let evidence :=
      if 1000 < evidence.length then pyTake 1000 evidence else evidence
    let id := relationshipUuidKey source_concept_id target_concept_id type
    match temporal_distance with
    | some d =>
      if d < 0 then Except.error "Invalid temporal_distance"
      else
        Except.ok
          { source_concept_id := source_concept_id,
            target_concept_id := target_concept_id, type := type,
            confidence := confidence, evidence := evidence,
            detection_method := detection_method,
            source_video_id := source_video_id,
            source_group_id := source_group_id,
            target_video_id := target_video_id,
            target_group_id := target_group_id,
            temporal_distance := some d, id := id }
    | none =>
      Except.ok
        { source_concept_id := source_concept_id,
          target_concept_id := target_concept_id, type := type,
          confidence := confidence, evidence := evidence,
          detection_method := detection_method,
          source_video_id := source_video_id,
          source_group_id := source_group_id,
          target_video_id := target_video_id,
          target_group_id := target_group_id,
          temporal_distance := none, id := id }

/-- `ExtractedConcepts` (`src/core/concept_models.py`): the fields read by
the relationship detectors. -/
structure ExtractedConcepts where
  video_id : String
  group_id : ℕ
  group_text : String
  concepts : List Concept
deriving Repr, DecidableEq

/-! ## `src/services/relationships/intra_group_detector.py` -/

/-- A literal alternation `(?:w₁|…|wₙ)` from string literals. -/
def litAlts (l : List String) : RTok := RTok.lits (l.map String.data)

/-- `RELATIONSHIP_PATTERNS` with `{source}`/`{target}` substituted by
`create_concept_regex` concept tokens (`.concept true`/`.concept false`).
Nested `x?` quantifiers inside alternations are flattened to their
alternative lists in Python preference order (greedy first), e.g.
`relies? on` contributes `relies on` then `relie on`. -/
def RELATIONSHIP_PATTERNS : RelationshipType → Option (List (List RTok))
  | .defines => some [
      [RTok.concept true, RTok.ws,
        litAlts ["is", "are", "refers to", "refer to", "means", "mean",
          "defined as"],
        RTok.ws, RTok.concept false],
      [RTok.concept true, RTok.wsAround ([":", "-"].map String.data),
        RTok.concept false],
      [RTok.concept false, RTok.ws, litAlts ["is", "are"], RTok.ws,
        litAlts ["called", "known as", "termed"], RTok.ws,
        RTok.concept true]]
  | .causes => some [
      [RTok.concept true, RTok.ws,
        litAlts ["causes", "cause", "leads to", "lead to", "results in",
          "result in", "produces", "produce"],
        RTok.ws, RTok.concept false],
      [RTok.concept false, RTok.ws, litAlts ["is", "are"], RTok.ws,
        litAlts ["caused by", "due to", "result of"], RTok.ws,
        RTok.concept true],
      [litAlts ["because", "since", "as"], RTok.ws, RTok.concept true,
        RTok.anyPlus, RTok.concept false]]
  | .requires => some [
      [RTok.concept true, RTok.ws,
        litAlts ["requires", "require", "needs", "need", "depends on",
          "depend on", "relies on", "relie on"],
        RTok.ws, RTok.concept false],
      [RTok.concept false, RTok.ws, litAlts ["is", "are"], RTok.ws,
        litAlts ["required", "needed", "necessary"], RTok.ws,
        litAlts ["for", "by"], RTok.ws, RTok.concept true],
      [litAlts ["to", "for"], RTok.ws, RTok.concept true, RTok.anyPlus,
        litAlts ["need", "require"], RTok.ws, RTok.concept false]]
  | .contradicts => some [
      [RTok.concept true, RTok.ws,
        litAlts ["contradicts", "contradict", "conflicts with",
          "conflict with", "opposes", "oppose"],
        RTok.ws, RTok.concept false],
      [RTok.concept true, RTok.ws, litAlts ["but", "however", "yet"],
        RTok.ws, RTok.concept false],
      [litAlts ["unlike", "contrary to", "in contrast to"], RTok.ws,
        RTok.concept true, RTok.anyPlus, RTok.concept false]]
  | .exemplifies => some [
      [RTok.concept true, RTok.ws, litAlts ["is", "are"], RTok.ws,
        litAlts ["an", "a", "one"], RTok.ws,
        litAlts ["example", "instance"], RTok.ws, RTok.litStr "of".data,
        RTok.ws, RTok.concept false],
      [RTok.concept false, RTok.ws,
        litAlts ["such as", "like", "including", "e.g.", "for example"],
        RTok.ws, RTok.concept true],
      [litAlts ["for example", "for instance", "such as"], RTok.anyPlus,
        RTok.concept true, RTok.anyPlus, RTok.concept false]]
  | .implements => some [
      [RTok.concept true, RTok.ws,
        litAlts ["implements", "implement", "realizes", "realize"],
        RTok.ws, RTok.concept false],
      [RTok.concept false, RTok.ws, litAlts ["is", "are"], RTok.ws,
        RTok.litStr "implemented ".data, litAlts ["by", "in", "using"],
        RTok.ws, RTok.concept true]]
  | .uses => some [
      [RTok.concept true, RTok.ws,
        litAlts ["uses", "use", "utilizes", "utilize", "employs",
          "employ", "applies", "applie"],
        RTok.ws, RTok.concept false],
      [RTok.concept false, RTok.ws, litAlts ["is", "are"], RTok.ws,
        RTok.litStr "used ".data, litAlts ["by", "in", "for"], RTok.ws,
        RTok.concept true]]
  | _ => none

/-- `find_relationship_in_text`: try each template of the type on the
normalized text; on the first match, slice the RAW text around the
NORMALIZED match positions (±50), strip it, and return it with the
importance-boosted confidence `min(0.95, 0.7 + (imp_s + imp_t)/4)`. -/
def find_relationship_in_text (text : String)
    (source_concept target_concept : Concept) (rel_type : RelationshipType) :
    Option (String × ℚ) :=
  match RELATIONSHIP_PATTERNS rel_type with
  | none => none
  | some pats =>
    let normalized_text := normalize_for_pattern text
    let sp := (pyLower source_concept.name).data
    let tp := (pyLower target_concept.name).data
    firstSome pats fun toks =>
      match reSearch sp tp toks normalized_text with
      | some (st, en) =>
        some (pyStrip (sliceStr text (st - 50) (min text.length (en + 50))),
          min ((19 : ℚ)/20)
            ((7 : ℚ)/10 +
              (source_concept.importance + target_concept.importance) / 4))
      | none => none

/-- The concept regex `\b name (?:'?s)? \b` anchored at the current
position: the matched length, greedy over the optional suffix. -/
def conceptMatchAt (name : List Char) (prev : Option Char)
    (s : List Char) : Option ℕ :=
  if boundaryBefore prev then
    match consumeLit name s with
    | some rest =>
      firstSome conceptSuffixes fun sfx =>
        match consumeLit sfx rest with
        | some rest2 =>
          if boundaryAfterOk rest2 then some (name.length + sfx.length)
          else none
        | none => none
    | none => none
  else none

/-- `re.finditer` for a concept regex: scan left to right, resuming after
each match (non-overlapping); fuelled by the text length. -/
def findAllMatchesGo (name : List Char) :
    ℕ → Option Char → List Char → ℕ → List (ℕ × ℕ)
  | 0, _, _, _ => []
  | fuel + 1, prev, s, pos =>
    match conceptMatchAt name prev s with
    | some k =>
      if k = 0 then
        match s with
        | [] => [(pos, pos)]
        | c :: rest => (pos, pos) :: findAllMatchesGo name fuel (some c) rest (pos + 1)
      else
        (pos, pos + k) ::
          findAllMatchesGo name fuel (lastOf (s.take k) prev) (s.drop k) (pos + k)
    | none =>
      match s with
      | [] => []
      | c :: rest => findAllMatchesGo name fuel (some c) rest (pos + 1)

/-- All `(start, end)` matches of a concept regex in `s`. -/
def findAllMatches (name : List Char) (s : String) : List (ℕ × ℕ) :=
  findAllMatchesGo name (s.data.length + 1) none s.data 0

/-- `detect_proximity_relationship`: the generic `USES` fallback when the
two concept names co-occur within 100 characters of normalized text; the
first strictly-closest pair of occurrences (outer source loop, inner
target loop) supplies the evidence window. -/
def detect_proximity_relationship (source_concept target_concept : Concept)
    (group_text : String) : Option (RelationshipType × String × ℚ) :=
  let normalized_text := normalize_for_pattern group_text
  let source_matches :=
    findAllMatches (pyLower source_concept.name).data normalized_text
  let target_matches :=
    findAllMatches (pyLower target_concept.name).data normalized_text
  if source_matches.isEmpty || target_matches.isEmpty then none
  else
    match (source_matches.flatMap fun a =>
        target_matches.map fun b => (a, b)).foldl
        (fun acc p =>
          let d := ((p.1.1 : Int) - (p.2.1 : Int)).natAbs
          match acc with
          | none => some (d, p.1, p.2)
          | some (dmin, a, b) =>
            if d < dmin then some (d, p.1, p.2) else some (dmin, a, b))
        none with
    | none => none
    | some (dmin, cs, ct) =>
      if dmin < 100 then
        some (RelationshipType.uses,
          pyStrip (sliceStr group_text (min cs.1 ct.1 - 30)
            (min group_text.length (max cs.2 ct.2 + 30))),
          (1 : ℚ)/2 + (1 - (dmin : ℚ) / 100) * ((1 : ℚ)/5))
      else none

/-- One concept pair of `IntraGroupDetector.detect_relationships`: the
pattern stage (first intra-group type in enum order whose template matches
with confidence at least `min_confidence` appends one relationship), then
the proximity fallback when the accumulator has no relationship for this
`(source, target)` id pair.  The third, embedding-based fallback is dead
code here: `RelationshipExtractor` constructs the detector with
`openai_client=None`.  The uncaught `ValueError` of
`Relationship.__post_init__` is the `Except.error` channel. -/
def intraPairStep (min_confidence : ℚ) (group_text : String)
    (relationships : List Relationship) (source target : Concept) :
    Except String (List Relationship) := do
  let acc1 ←
    match firstSome (relationshipTypeOrder.filter
        fun t => t.is_intra_group) (fun rel_type =>
          match find_relationship_in_text group_text source target rel_type with
          | some (evidence, confidence) =>
            if min_confidence ≤ confidence then
              some (rel_type, evidence, confidence)
            else none
          | none => none) with
    | some (rel_type, evidence, confidence) => do
      let r ← mkRelationship source.id target.id rel_type confidence
        evidence DetectionMethod.pattern_matching source.video_id
        source.group_id target.video_id target.group_id
        (some |source.first_mention_time - target.first_mention_time|)
      pure (relationships ++ [r])
    | none => pure relationships
  if acc1.any (fun r =>
      r.source_concept_id == source.id &&
      r.target_concept_id == target.id) then
    pure acc1
  else
    match detect_proximity_relationship source target group_text with
    | some (rel_type, evidence, confidence) =>
      if min_confidence ≤ confidence then do
        let r ← mkRelationship source.id target.id rel_type confidence
          evidence DetectionMethod.pattern_matching source.video_id
          source.group_id target.video_id target.group_id
          (some |source.first_mention_time - target.first_mention_time|)
        pure (acc1 ++ [r])
      else pure acc1
    | none => pure acc1

/-- The ordered `(i, j)`, `i ≠ j` concept pairs of the double loop. -/
def intraPairs (concepts : List Concept) : List (Concept × Concept) :=
  concepts.enum.flatMap fun p =>
    concepts.enum.filterMap fun q =>
      if p.1 = q.1 then none else some (p.2, q.2)

/-- The pair loop of `IntraGroupDetector.detect_relationships`. -/
def intraLoop (min_confidence : ℚ) (group_text : String) :
    List (Concept × Concept) → List Relationship →
      Except String (List Relationship)
  | [], relationships => Except.ok relationships
  | (source, target) :: rest, relationships => do
    let acc ← intraPairStep min_confidence group_text relationships
      source target
    intraLoop min_confidence group_text rest acc

/-- `IntraGroupDetector.detect_relationships` (with `openai_client=None`,
the `RelationshipExtractor` wiring). -/
def intraDetectRelationships (min_confidence : ℚ)
    (extracted_concepts : ExtractedConcepts) :
    Except String (List Relationship) :=
  intraLoop min_confidence extracted_concepts.group_text
    (intraPairs extracted_concepts.concepts) []

/-! ## `_build_concepts` (`src/services/concepts/concept_extractor.py`) -/

/-- `ConceptType.from_string`: exact `.value` match, defaulting to
`CONCEPT`. -/
def ConceptType.from_string (value : String) : ConceptType :=
  if value = "Person" then ConceptType.person
  else if value = "Organization" then ConceptType.organization
  else if value = "Technology" then ConceptType.technology
  else if value = "Method" then ConceptType.method
  else if value = "Problem" then ConceptType.problem
  else if value = "Solution" then ConceptType.solution
  else if value = "Concept" then ConceptType.concept
  else if value = "Metric" then ConceptType.metric
  else if value = "Dataset" then ConceptType.dataset
  else if value = "Event" then ConceptType.event
  else if value = "Place" then ConceptType.place
  else ConceptType.concept

/-- One entry of the parsed `concepts_data["concepts"]` JSON list: the
fields `_build_concepts` reads, with its `.get` defaults. -/
structure ConceptItem where
  name : String := ""
  definition : String := ""
  type_str : String := "Concept"
  importance : ℚ := mkRat 1 2
  confidence : ℚ := mkRat 7 10
  aliases : List String := []
deriving Repr

/-- One iteration of `_build_concepts`: `none` when the item is skipped
with a warning — because the stripped name or definition is empty, or
because `Concept.__post_init__` raised (the per-item `try/except`). -/
def buildConcept (video_id : String) (group_id : ℕ)
    (start_time end_time : ℚ) (item : ConceptItem) : Option Concept :=
  let name := pyStrip item.name
  let definition := pyStrip item.definition
  if name.length = 0 || definition.length = 0 then none
  else
    (conceptPostInit name definition (ConceptType.from_string item.type_str)
      item.importance item.confidence video_id group_id start_time end_time
      1 item.aliases none).toOption

/-- `_build_concepts`: a per-item loop that skips failed items and keeps
the rest. -/
def buildConcepts (video_id : String) (group_id : ℕ)
    (start_time end_time : ℚ) : List ConceptItem → List Concept
  | [] => []
  | item :: rest =>
    match buildConcept video_id group_id start_time end_time item with
    | some c => c :: buildConcepts video_id group_id start_time end_time rest
    | none => buildConcepts video_id group_id start_time end_time rest

/-! ## `src/services/relationships/inter_group_detector.py` -/

/-- `CUE_PHRASES` in dict-insertion order.  Each regex is flattened to its
list of literal alternatives in Python preference order.  The detector
uses only the match START position, so the optional suffix of
`(?:more|further) detail(?:s|ed)?` (which never moves the start and never
changes matchability) is dropped; every other pattern is a pure literal
alternation once nested `?` quantifiers are expanded (`extends?` giving
`extends` then `extend`). -/
def CUE_PHRASES : List (RelationshipType × List (List (List Char))) :=
  [(RelationshipType.builds_on,
    [["building on", "building upon", "built on", "built upon"].map String.data,
     ["extending on", "extending from", "extends on", "extends from",
      "extend on", "extend from"].map String.data,
     ["taking this further", "taking that further",
      "taking it further"].map String.data,
     ["going deeper into"].map String.data,
     ["expanding on"].map String.data]),
   (RelationshipType.elaborates,
    [["more detail", "further detail"].map String.data,
     ["to elaborate", "let me elaborate"].map String.data,
     ["specifically"].map String.data,
     ["in particular"].map String.data,
     ["diving deeper", "dig deeper"].map String.data,
     ["closer look", "detailed look"].map String.data]),
   (RelationshipType.references,
    [["as i mentioned", "as i said", "as i discussed", "as we mentioned",
      "as we said", "as we discussed", "like i mentioned", "like i said",
      "like i discussed", "like we mentioned", "like we said",
      "like we discussed"].map String.data,
     ["earlier", "previously", "before"].map String.data,
     ["remember that", "remember when", "recall that",
      "recall when"].map String.data,
     ["back to", "going back to"].map String.data,
     ["as discussed", "as talked about", "like discussed",
      "like talked about"].map String.data]),
   (RelationshipType.refines,
    [["more accurate", "more precise", "more refined", "better accurate",
      "better precise", "better refined", "improved accurate",
      "improved precise", "improved refined"].map String.data,
     ["to be clear", "to be specific", "more clear",
      "more specific"].map String.data,
     ["actually", "in fact", "really"].map String.data,
     ["correcting", "correction"].map String.data,
     ["refining", "refined"].map String.data])]

/-- The leftmost position at which one of the literal alternatives starts
(`re.search(…).start()` for a literal alternation). -/
def litSearchPos (alts : List (List Char)) : List Char → ℕ → Option ℕ
  | [], pos =>
    if alts.any (fun w => (consumeLit w []).isSome) then some pos else none
  | c :: rest, pos =>
    if alts.any (fun w => (consumeLit w (c :: rest)).isSome) then some pos
    else litSearchPos alts rest (pos + 1)

/-- `re.search(r"\b" + re.escape(name) + r"\b", region)` as a Boolean
(no optional suffix here, unlike the intra-group concept regex). -/
def wordSearchB (name : List Char) : Option Char → List Char → Bool
  | prev, [] =>
    boundaryBefore prev &&
      (match consumeLit name [] with
       | some rest => boundaryAfterOk rest
       | none => false)
  | prev, c :: rest =>
    (boundaryBefore prev &&
      (match consumeLit name (c :: rest) with
       | some r => boundaryAfterOk r
       | none => false)) ||
    wordSearchB name (some c) rest

/-- `detect_cue_phrase_relationship`: scan the SOURCE group's normalized
text for a cue phrase; when the (lowercased) target concept name occurs
within `[cue-100, cue+200)` of it, return the type with evidence sliced
from the raw source text `[cue-50, cue+150)` (stripped) and confidence
`0.75 + source.importance * 0.15`.  The `target_group_text` parameter is
unused, exactly as in the source. -/
def detect_cue_phrase_relationship (source_concept target_concept : Concept)
    (source_group_text target_group_text : String) :
    Option (RelationshipType × String × ℚ) :=
  let _ := target_group_text
  let normalized_source := normalize_for_pattern source_group_text
  let target_pattern := (pyLower target_concept.name).data
  firstSome CUE_PHRASES fun tp =>
    firstSome tp.2 fun alts =>
      match litSearchPos alts normalized_source.data 0 with
      | none => none
      | some cue_pos =>
        if wordSearchB target_pattern none
            (sliceStr normalized_source (cue_pos - 100)
              (min normalized_source.length (cue_pos + 200))).data then
          some (tp.1,
            pyStrip (sliceStr source_group_text (cue_pos - 50)
              (min source_group_text.length (cue_pos + 150))),
            (3 : ℚ)/4 + source_concept.importance * ((3 : ℚ)/20))
        else none

/-- Stable insertion after all not-greater keys: `list.sort` (stable) with
`key=lambda ec: ec.group_id`. -/
def insertByGroup : List ExtractedConcepts → ExtractedConcepts →
    List ExtractedConcepts
  | [], x => [x]
  | y :: rest, x =>
    if y.group_id ≤ x.group_id then y :: insertByGroup rest x
    else x :: y :: rest

/-- Stable sort of the groups by `group_id`. -/
def sortByGroupId (l : List ExtractedConcepts) : List ExtractedConcepts :=
  l.foldl insertByGroup []

/-- The ordered `(i, j)`, `i < j` group pairs of the double loop:
`source_group` is the group at the EARLIER index `i`, `target_group` at
the later index `j`. -/
def interGroupPairs (l : List ExtractedConcepts) :
    List (ExtractedConcepts × ExtractedConcepts) :=
  l.enum.flatMap fun p =>
    l.enum.filterMap fun q =>
      if q.1 ≤ p.1 then none else some (p.2, q.2)

/-- The concept-pair loop of `InterGroupDetector.detect_relationships`
for one group pair (with `openai_client=None`, so the vector-similarity
method is skipped): a cue-phrase hit with sufficient confidence appends
one relationship built from the source concept (of the earlier group). -/
def interConceptLoop (min_confidence : ℚ)
    (source_group target_group : ExtractedConcepts) :
    List (Concept × Concept) → List Relationship →
      Except String (List Relationship)
  | [], relationships => Except.ok relationships
  | (source_concept, target_concept) :: rest, relationships => do
    let acc ←
      match detect_cue_phrase_relationship source_concept target_concept
          source_group.group_text target_group.group_text with
      | some (rel_type, evidence, confidence) =>
        if min_confidence ≤ confidence then do
          let r ← mkRelationship source_concept.id target_concept.id
            rel_type confidence evidence DetectionMethod.cue_phrase
            source_concept.video_id source_concept.group_id
            target_concept.video_id target_concept.group_id
            (some |source_concept.first_mention_time -
              target_concept.first_mention_time|)
          pure (relationships ++ [r])
        else pure relationships
      | none => pure relationships
    interConceptLoop min_confidence source_group target_group rest acc

/-- The group-pair loop of `InterGroupDetector.detect_relationships`. -/
def interGroupLoop (min_confidence : ℚ) :
    List (ExtractedConcepts × ExtractedConcepts) → List Relationship →
      Except String (List Relationship)
  | [], relationships => Except.ok relationships
  | (source_group, target_group) :: rest, relationships => do
    let acc ← interConceptLoop min_confidence source_group target_group
      (source_group.concepts.flatMap fun s =>
        target_group.concepts.map fun t => (s, t)) relationships
    interGroupLoop min_confidence rest acc

/-- `InterGroupDetector.detect_relationships` (with `openai_client=None`,
the `RelationshipExtractor` wiring): filter to the video, sort stably by
`group_id`, and run the cue-phrase method over all forward group pairs. -/
def interDetectRelationships (min_confidence : ℚ)
    (all_extracted_concepts : List ExtractedConcepts) (video_id : String) :
    Except String (List Relationship) :=
  interGroupLoop min_confidence
    (interGroupPairs (sortByGroupId
      (all_extracted_concepts.filter fun ec => ec.video_id == video_id)))
    []

/-! ### C5: per-item drops versus a stage-aborting `ValueError`

`_build_concepts` wraps each item in `try/except` and skips it on
failure; `IntraGroupDetector.detect_relationships` constructs
`Relationship(...)` with no handler, so the `ValueError` raised by
`Relationship.__post_init__` for evidence shorter than 10 characters
escapes the stage.  Short evidence is reachable: the evidence slice
applies match positions computed on the NORMALIZED text to the RAW text,
so a raw text with enough leading whitespace makes the slice all blank.
Scores in the concrete inputs are written with `mkRat` (e.g. `mkRat 1 2`
for `0.5`). -/

/-- A group text with 60 leading spaces: the normalized match `[0, 8)` of
`"ai is ml"` points at raw-text whitespace. -/
def padText : String := ⟨List.replicate 60 ' '⟩ ++ "ai is ml"

/-- Concept `"ai"` of the padded group. -/
def cAI : Concept :=
  { name := "ai", definition := "artificial intelligence systems",
    type := ConceptType.technology, importance := mkRat 1 2,
    confidence := mkRat 7 10, video_id := "v", group_id := 0,
    first_mention_time := 0, last_mention_time := 1, mention_count := 1,
    aliases := [], id := "cA" }

/-- Concept `"ml"` of the padded group. -/
def cML : Concept :=
  { name := "ml", definition := "machine learning methods",
    type := ConceptType.technology, importance := mkRat 1 2,
    confidence := mkRat 7 10, video_id := "v", group_id := 0,
    first_mention_time := 3, last_mention_time := 4, mention_count := 1,
    aliases := [], id := "cB" }

/-- The padded extracted-concepts input. -/
def ecPad : ExtractedConcepts :=
  { video_id := "v", group_id := 0, group_text := padText,
    concepts := [cAI, cML] }

/-- On the padded text, the first `DEFINES` template matches `"ai is ml"`
at normalized positions `[0, 8)` and the raw evidence slice strips to the
empty string. -/
theorem intra_pad_find :
    find_relationship_in_text padText cAI cML RelationshipType.defines
      = some ("", min ((19 : ℚ)/20)
          ((7 : ℚ)/10 + (cAI.importance + cML.importance) / 4)) := by
  have hsearch : reSearch (pyLower cAI.name).data (pyLower cML.name).data
      [RTok.concept true, RTok.ws,
        litAlts ["is", "are", "refers to", "refer to", "means", "mean",
          "defined as"],
        RTok.ws, RTok.concept false]
      (normalize_for_pattern padText) = some (0, 8) := by decide
  have hslice :
      pyStrip (sliceStr padText (0 - 50) (min padText.length (8 + 50)))
        = "" := by decide
  simp only [find_relationship_in_text, RELATIONSHIP_PATTERNS, firstSome,
    hsearch, hslice]

/-- The pattern stage aborts the padded pair with the short-evidence
`ValueError`. -/
theorem intra_pad_step :
    intraPairStep ((3 : ℚ)/5) padText [] cAI cML
      = Except.error "Evidence too short: " := by
  have hconf : (3 : ℚ)/5 ≤ min ((19 : ℚ)/20)
      ((7 : ℚ)/10 + (cAI.importance + cML.importance) / 4) := by
    simp only [cAI, cML]
    rw [Rat.mkRat_eq_div]
    norm_num
  have hfilter : relationshipTypeOrder.filter
      (fun t => t.is_intra_group)
      = [RelationshipType.defines, RelationshipType.causes,
         RelationshipType.requires, RelationshipType.contradicts,
         RelationshipType.exemplifies, RelationshipType.implements,
         RelationshipType.uses] := by decide
  have hmk : mkRelationship cAI.id cML.id RelationshipType.defines
      (min ((19 : ℚ)/20)
        ((7 : ℚ)/10 + (cAI.importance + cML.importance) / 4)) ""
      DetectionMethod.pattern_matching cAI.video_id cAI.group_id
      cML.video_id cML.group_id
      (some |cAI.first_mention_time - cML.first_mention_time|)
      = Except.error "Evidence too short: " := by
    simp only [mkRelationship]
    norm_num [pyStrip, pyStripList, String.length]
    decide
  simp only [intraPairStep, hfilter, firstSome, intra_pad_find,
    if_pos hconf, hmk, Except.bind]
  rfl

/-- **C5 counterexample.**  The claim says relationship detection over a
group never aborts because one constructed relationship has evidence
shorter than 10 characters.  On the padded group, the very first concept
pair matches a `DEFINES` template whose raw evidence slice strips to the
empty string, `Relationship.__post_init__` raises
`ValueError("Evidence too short: ")`, and
`IntraGroupDetector.detect_relationships` — which, unlike
`_build_concepts`, has no per-item handler — aborts with it. -/
theorem intra_short_evidence_aborts :
    intraDetectRelationships ((3 : ℚ)/5) ecPad
      = Except.error "Evidence too short: " := by
  have hpairs : intraPairs ecPad.concepts
      = [(cAI, cML), (cML, cAI)] := by decide
  simp only [intraDetectRelationships, hpairs, ecPad, intraLoop,
    intra_pad_step, Except.bind]
  rfl

/-- **C5 amended.**  Per-item validation failures behave differently in
the two stages: (1) `_build_concepts` drops a failing concept item with a
warning and keeps the rest (it is the pointwise `filterMap` of its item
builder); (2) a relationship whose stripped evidence is shorter than 10
characters makes `Relationship.__post_init__` raise
`ValueError("Evidence too short: …")`; and (3) that error is NOT caught by
`IntraGroupDetector.detect_relationships`: the pair loop aborts with it,
discarding all relationships detected so far. -/
theorem validation_drop_vs_abort :
    (∀ (video_id : String) (group_id : ℕ) (start_time end_time : ℚ)
        (items : List ConceptItem),
      buildConcepts video_id group_id start_time end_time items
        = items.filterMap
            (buildConcept video_id group_id start_time end_time)) ∧
    (∀ (sid tid : String) (ty : RelationshipType) (conf : ℚ) (ev : String)
        (dm : DetectionMethod) (svid : String) (sgid : ℕ) (tvid : String)
        (tgid : ℕ) (td : Option ℚ),
      (pyStrip ev).length < 10 →
        mkRelationship sid tid ty conf ev dm svid sgid tvid tgid td
          = Except.error ("Evidence too short: " ++ pyStrip ev)) ∧
    (∀ (minc : ℚ) (gt : String) (a b : Concept)
        (rest : List (Concept × Concept)) (acc : List Relationship)
        (e : String),
      intraPairStep minc gt acc a b = Except.error e →
        intraLoop minc gt ((a, b) :: rest) acc = Except.error e) := by
  refine ⟨?_, ?_, ?_⟩
  · intro video_id group_id start_time end_time items
    induction items with
    | nil => rfl
    | cons it rest ih =>
      simp only [buildConcepts, List.filterMap_cons]
      cases h : buildConcept video_id group_id start_time end_time it <;>
        simp [h, ih]
  · intro sid tid ty conf ev dm svid sgid tvid tgid td h
    simp only [mkRelationship, if_pos h]
  · intro minc gt a b rest acc e h
    simp only [intraLoop, h, Except.bind]
    rfl

/-- Witness for the amended C5: a blank-named item is dropped while the
well-formed one is kept, a five-character evidence string raises, and the
raised error aborts a concrete pair loop. -/
theorem validation_drop_vs_abort_witness :
    buildConcepts "v" 0 0 1
        [{ name := " " },
         { name := "ai", definition := "a sufficiently long definition" }]
      = List.filterMap (buildConcept "v" 0 0 1)
          [{ name := " " },
           { name := "ai", definition := "a sufficiently long definition" }] ∧
    mkRelationship "a" "b" RelationshipType.uses 1 "short"
        DetectionMethod.pattern_matching "v" 0 "w" 1 none
      = Except.error ("Evidence too short: " ++ pyStrip "short") ∧
    intraLoop ((3 : ℚ)/5) padText [(cAI, cML)] []
      = Except.error "Evidence too short: " :=
  ⟨validation_drop_vs_abort.1 "v" 0 0 1 _,
   validation_drop_vs_abort.2.1 "a" "b" RelationshipType.uses 1 "short"
     DetectionMethod.pattern_matching "v" 0 "w" 1 none (by decide),
   validation_drop_vs_abort.2.2 ((3 : ℚ)/5) padText cAI cML [] []
     "Evidence too short: " intra_pad_step⟩

/-! ### C1: direction of inter-group candidate relationships

In `InterGroupDetector.detect_relationships` the outer index `i` ranges
over EARLIER groups and `source_group`/`source_concept` are taken from it,
while `detect_cue_phrase_relationship` scans `source_group.group_text` —
the EARLIER group's text — for cue phrases.  The claim (like the
function's own docstring) puts the source concept in the LATER group and
the cue phrase in the later group's text. -/

/-- Concept of the earlier group (input A). -/
def cTrain : Concept :=
  { name := "model training", definition := "fitting model parameters",
    type := ConceptType.method, importance := mkRat 1 2,
    confidence := mkRat 7 10, video_id := "v", group_id := 0,
    first_mention_time := 0, last_mention_time := 5, mention_count := 1,
    aliases := [], id := "c0" }

/-- Concept of the later group (input A). -/
def cGrad : Concept :=
  { name := "gradient descent", definition := "gradient-based optimization",
    type := ConceptType.method, importance := mkRat 1 2,
    confidence := mkRat 7 10, video_id := "v", group_id := 1,
    first_mention_time := 10, last_mention_time := 15, mention_count := 1,
    aliases := [], id := "c1" }

/-- Input A, earlier group: its text carries the cue phrase
`"building on"` (position 7) and mentions the later group's concept. -/
def gEarly : ExtractedConcepts :=
  { video_id := "v", group_id := 0,
    group_text := "we are building on gradient descent here to train our models",
    concepts := [cTrain] }

/-- Input A, later group: its text has no cue phrase. -/
def gLate : ExtractedConcepts :=
  { video_id := "v", group_id := 1,
    group_text := "now we study optimization methods in depth",
    concepts := [cGrad] }

/-- The relationship the code emits on input A: source = the EARLIER
group's concept, evidence = the EARLIER group's text. -/
def rBug : Relationship :=
  { source_concept_id := "c0", target_concept_id := "c1",
    type := RelationshipType.builds_on,
    confidence := max 0 (min 1
      ((3 : ℚ)/4 + cTrain.importance * ((3 : ℚ)/20))),
    evidence := "we are building on gradient descent here to train our models",
    detection_method := DetectionMethod.cue_phrase,
    source_video_id := "v", source_group_id := 0,
    target_video_id := "v", target_group_id := 1,
    temporal_distance :=
      some |cTrain.first_mention_time - cGrad.first_mention_time|,
    id := "c0:c1:builds_on" }

/-- Concept of the earlier group (input B, the claim's own scenario). -/
def cGrad2 : Concept :=
  { name := "gradient descent", definition := "gradient-based optimization",
    type := ConceptType.method, importance := mkRat 1 2,
    confidence := mkRat 7 10, video_id := "v", group_id := 0,
    first_mention_time := 0, last_mention_time := 5, mention_count := 1,
    aliases := [], id := "d0" }

/-- Concept of the later group (input B). -/
def cTrain2 : Concept :=
  { name := "model training", definition := "fitting model parameters",
    type := ConceptType.method, importance := mkRat 1 2,
    confidence := mkRat 7 10, video_id := "v", group_id := 1,
    first_mention_time := 10, last_mention_time := 15, mention_count := 1,
    aliases := [], id := "d1" }

/-- Input B, earlier group: cue-free text introducing `gradient descent`. -/
def gEarly2 : ExtractedConcepts :=
  { video_id := "v", group_id := 0,
    group_text := "gradient descent is the foundation",
    concepts := [cGrad2] }

/-- Input B, later group: it refers back with the cue `"building on"`
next to the earlier group's concept name — the claim's emission
scenario. -/
def gLate2 : ExtractedConcepts :=
  { video_id := "v", group_id := 1,
    group_text := "we are building on gradient descent here to train our models",
    concepts := [cTrain2] }

/-- On input A the cue scan of the EARLIER group's text succeeds: cue at
normalized position 7, later concept name inside the search region, whole
(earlier) text as evidence. -/
theorem inter_cue_early :
    detect_cue_phrase_relationship cTrain cGrad gEarly.group_text
        gLate.group_text
      = some (RelationshipType.builds_on, gEarly.group_text,
          (3 : ℚ)/4 + cTrain.importance * ((3 : ℚ)/20)) := by
  have hpos : litSearchPos
      (List.map String.data
        ["building on", "building upon", "built on", "built upon"])
      (normalize_for_pattern gEarly.group_text).data 0 = some 7 := by decide
  have hword : wordSearchB (pyLower cGrad.name).data none
      (sliceStr (normalize_for_pattern gEarly.group_text) (7 - 100)
        (min (normalize_for_pattern gEarly.group_text).length
          (7 + 200))).data = true := by decide
  have hev : pyStrip (sliceStr gEarly.group_text (7 - 50)
      (min gEarly.group_text.length (7 + 150))) = gEarly.group_text := by
    decide
  simp only [detect_cue_phrase_relationship, CUE_PHRASES, firstSome, hpos,
    hword, if_true, hev]

/-- The confidence of the input-A hit clears the 0.6 gate. -/
theorem inter_conf_ok :
    (3 : ℚ)/5 ≤ (3 : ℚ)/4 + cTrain.importance * ((3 : ℚ)/20) := by
  simp only [cTrain]
  rw [Rat.mkRat_eq_div]
  norm_num

/-- Constructing the input-A relationship succeeds and yields `rBug`. -/
theorem inter_mk_rBug :
    mkRelationship cTrain.id cGrad.id RelationshipType.builds_on
      ((3 : ℚ)/4 + cTrain.importance * ((3 : ℚ)/20)) gEarly.group_text
      DetectionMethod.cue_phrase cTrain.video_id cTrain.group_id
      cGrad.video_id cGrad.group_id
      (some |cTrain.first_mention_time - cGrad.first_mention_time|)
      = Except.ok rBug := by
  have hstrip : pyStrip gEarly.group_text = gEarly.group_text := by decide
  have hlen : ¬ (gEarly.group_text.length < 10) := by decide
  have htr : ¬ (1000 < gEarly.group_text.length) := by decide
  have htd : ¬ (|cTrain.first_mention_time - cGrad.first_mention_time|
      < 0) := not_lt.mpr (abs_nonneg _)
  simp only [mkRelationship, hstrip, if_neg hlen, if_neg htr, if_neg htd,
    relationshipUuidKey, RelationshipType.value]
  rfl

/-- **C1.**  The code takes the source concept from the EARLIER group and
scans the EARLIER group's text for cue phrases; the claim (and the
function's own docstring) say source from the later group with the cue in
the later group's text.  Input A (cue phrase and target-concept mention in
the EARLIER group's text, later group cue-free) makes the detector emit
exactly `rBug`, whose source is the earlier group's concept
(`source_group_id = 0`) and whose evidence is the earlier group's text —
under the claim nothing would be emitted.  Input B — the claim's own
scenario, with the later group's text referring back via `"building on"`
next to the earlier concept's name — yields NO relationship, where the
claim requires one. -/
theorem inter_direction_reversed :
    (interDetectRelationships ((3 : ℚ)/5) [gEarly, gLate] "v"
        = Except.ok [rBug] ∧
      rBug.source_concept_id = cTrain.id ∧
      rBug.source_group_id = gEarly.group_id ∧
      rBug.target_concept_id = cGrad.id ∧
      rBug.target_group_id = gLate.group_id ∧
      rBug.type = RelationshipType.builds_on ∧
      rBug.evidence = gEarly.group_text) ∧
    interDetectRelationships ((3 : ℚ)/5) [gEarly2, gLate2] "v"
      = Except.ok [] := by
  refine ⟨⟨?_, rfl, rfl, rfl, rfl, rfl, rfl⟩, ?_⟩
  · have hpairs : interGroupPairs (sortByGroupId
        (List.filter (fun ec => ec.video_id == "v") [gEarly, gLate]))
        = [(gEarly, gLate)] := by decide
    have hcp : (gEarly.concepts.flatMap fun s =>
        gLate.concepts.map fun t => (s, t)) = [(cTrain, cGrad)] := by
      decide
    simp only [interDetectRelationships, hpairs, interGroupLoop, hcp,
      interConceptLoop, inter_cue_early, if_pos inter_conf_ok,
      inter_mk_rBug, Except.bind]
    rfl
  · have hpairs2 : interGroupPairs (sortByGroupId
        (List.filter (fun ec => ec.video_id == "v") [gEarly2, gLate2]))
        = [(gEarly2, gLate2)] := by decide
    have hcp2 : (gEarly2.concepts.flatMap fun s =>
        gLate2.concepts.map fun t => (s, t)) = [(cGrad2, cTrain2)] := by
      decide
    have hcue2 : detect_cue_phrase_relationship cGrad2 cTrain2
        gEarly2.group_text gLate2.group_text = none := by decide
    simp only [interDetectRelationships, hpairs2, interGroupLoop, hcp2,
      interConceptLoop, hcue2, Except.bind]
    rfl

end YTG
